import Mathlib

/-!
# Verification of the Loki exporter (`src/main.py`)

A shallow embedding of the incremental export engine of the Loki exporter:
timestamp/window arithmetic, the day loop and pagination loop of `run`,
`__get_logs`, the two formatters, the export-key derivation, and the
storage-sink dispatch of `__export_logs`.  Python strings are modelled as
Lean `String`/`List Char`; Python's unbounded `int` as `Nat` (all values
involved are non-negative); Python string comparison as code-point
lexicographic comparison `pyStrLt`; the external Loki HTTP service as a
stream of responses consumed one per query call; external sink I/O as
outcome oracles.
-/

namespace LokiExport

/-! ## Decimal rendering of naturals (Python `str(int)`) -/

/-- One decimal digit character, for `n % 10`. -/
def digitChar : Nat → Char
  | 0 => '0' | 1 => '1' | 2 => '2' | 3 => '3' | 4 => '4'
  | 5 => '5' | 6 => '6' | 7 => '7' | 8 => '8' | _ => '9'

/-- Fuel-driven most-significant-first decimal digits of `n`. -/
def natDigitsAux : Nat → Nat → List Char
  | 0, _ => []
  | fuel + 1, n =>
    if n < 10 then [digitChar n]
    else natDigitsAux fuel (n / 10) ++ [digitChar (n % 10)]

/-- Decimal digits of `n`, most significant first — the model of Python
`str(n)` for `n : Nat` (no leading zeros, `0 ↦ "0"`). -/
def natDigits (n : Nat) : List Char := natDigitsAux (n + 1) n

/-- Model of Python `str()` on a non-negative integer. -/
def natStr (n : Nat) : String := ⟨natDigits n⟩

theorem natDigitsAux_fuel_irrelevant :
    ∀ fuel n : Nat, n < fuel → natDigitsAux fuel n = natDigits n := by
  intro fuel
  induction fuel using Nat.strong_induction_on with
  | _ fuel ih =>
    intro n hn
    match fuel with
    | 0 => omega
    | f + 1 =>
      show natDigitsAux (f + 1) n = natDigitsAux (n + 1) n
      by_cases h10 : n < 10
      · simp [natDigitsAux, h10]
      · have hdiv : n / 10 < n := Nat.div_lt_self (by omega) (by omega)
        have h1 : natDigitsAux f (n / 10) = natDigits (n / 10) :=
          ih f (by omega) (n / 10) (by omega)
        have h2 : natDigitsAux n (n / 10) = natDigits (n / 10) :=
          ih n (by omega) (n / 10) (by omega)
        simp [natDigitsAux, h10, h1, h2]

/-- Unfolding equation for `natDigits`. -/
theorem natDigits_eq (n : Nat) :
    natDigits n = if n < 10 then [digitChar n]
      else natDigits (n / 10) ++ [digitChar (n % 10)] := by
  by_cases h10 : n < 10
  · simp [natDigits, natDigitsAux, h10]
  · have hdiv : n / 10 < n := Nat.div_lt_self (by omega) (by omega)
    have := natDigitsAux_fuel_irrelevant n (n / 10) (by omega)
    simp [natDigits, natDigitsAux, h10] at this ⊢
    exact this

theorem natDigits_ne_nil (n : Nat) : natDigits n ≠ [] := by
  rw [natDigits_eq]
  by_cases h : n < 10 <;> simp [h]

theorem natDigits_length_pos (n : Nat) : 0 < (natDigits n).length := by
  cases h : natDigits n with
  | nil => exact absurd h (natDigits_ne_nil n)
  | cons a l => simp

/-! ## Python string comparison (`<` on `str`, code-point lexicographic) -/

/-- Model of Python's `<` on strings: lexicographic on code points. -/
def pyStrLt : List Char → List Char → Bool
  | [], [] => false
  | [], _ :: _ => true
  | _ :: _, [] => false
  | a :: as, b :: bs =>
    if a.toNat < b.toNat then true
    else if b.toNat < a.toNat then false
    else pyStrLt as bs

theorem char_toNat_inj {a b : Char} (h : a.toNat = b.toNat) : a = b :=
  Char.ext (UInt32.ext h)

theorem pyStrLt_self (z : List Char) : pyStrLt z z = false := by
  induction z with
  | nil => rfl
  | cons a as ih => simp [pyStrLt, ih]

theorem pyStrLt_append_right (x y z : List Char) (h : x.length = y.length) :
    pyStrLt (x ++ z) (y ++ z) = pyStrLt x y := by
  induction x generalizing y with
  | nil =>
    cases y with
    | nil => simp [pyStrLt_self, pyStrLt]
    | cons b bs => simp at h
  | cons a as ih =>
    cases y with
    | nil => simp at h
    | cons b bs =>
      simp only [List.length_cons] at h
      by_cases hab : a.toNat < b.toNat
      · simp [pyStrLt, hab]
      · by_cases hba : b.toNat < a.toNat
        · simp [pyStrLt, hab, hba]
        · simp [pyStrLt, hab, hba, ih bs (by omega)]

theorem pyStrLt_append_last (x y : List Char) (c d : Char)
    (h : x.length = y.length) :
    pyStrLt (x ++ [c]) (y ++ [d]) = true ↔
      (pyStrLt x y = true ∨ (x = y ∧ c.toNat < d.toNat)) := by
  induction x generalizing y with
  | nil =>
    cases y with
    | nil =>
      simp only [List.nil_append, pyStrLt]
      by_cases hcd : c.toNat < d.toNat
      · simp [hcd]
      · by_cases hdc : d.toNat < c.toNat <;> simp [hcd, hdc, pyStrLt]
    | cons b bs => simp at h
  | cons a as ih =>
    cases y with
    | nil => simp at h
    | cons b bs =>
      simp only [List.length_cons] at h
      by_cases hab : a.toNat < b.toNat
      · simp [pyStrLt, hab]
      · by_cases hba : b.toNat < a.toNat
        · have hne : a ≠ b := by
            intro hh; rw [hh] at hba; omega
          simp [pyStrLt, hab, hba, hne]
        · have heq : a = b := char_toNat_inj (by omega)
          subst heq
          have hcons : ∀ u v : List Char, pyStrLt (a :: u) (a :: v) = pyStrLt u v := by
            intro u v
            simp [pyStrLt]
          rw [List.cons_append, List.cons_append, hcons]
          rw [ih bs (by omega), hcons]
          simp

theorem digitChar_toNat (i : Nat) (h : i < 10) :
    (digitChar i).toNat = 48 + i := by
  interval_cases i <;> decide

theorem natDigits_length_one (n : Nat) (h : n < 10) :
    (natDigits n).length = 1 := by
  rw [natDigits_eq, if_pos h]; rfl

theorem natDigits_length_ge_two (n : Nat) (h : 10 ≤ n) :
    2 ≤ (natDigits n).length := by
  rw [natDigits_eq, if_neg (by omega)]
  have := natDigits_length_pos (n / 10)
  simp only [List.length_append, List.length_cons, List.length_nil]
  omega

theorem natDigits_injective :
    ∀ a b : Nat, natDigits a = natDigits b → a = b := by
  intro a
  induction a using Nat.strong_induction_on with
  | _ a ih =>
    intro b hab
    by_cases ha : a < 10 <;> by_cases hb : b < 10
    · rw [natDigits_eq a, if_pos ha, natDigits_eq b, if_pos hb] at hab
      have hchar : digitChar a = digitChar b := by injection hab
      have : (digitChar a).toNat = (digitChar b).toNat := by rw [hchar]
      rw [digitChar_toNat a ha, digitChar_toNat b hb] at this
      omega
    · have h1 := natDigits_length_one a ha
      have h2 := natDigits_length_ge_two b (by omega)
      rw [hab] at h1; omega
    · have h1 := natDigits_length_one b hb
      have h2 := natDigits_length_ge_two a (by omega)
      rw [← hab] at h1; omega
    · rw [natDigits_eq a, if_neg ha, natDigits_eq b, if_neg hb] at hab
      have hP := List.append_inj' hab (by rfl)
      have hq : a / 10 = b / 10 :=
        ih (a / 10) (Nat.div_lt_self (by omega) (by omega)) (b / 10) hP.1
      have hchar : digitChar (a % 10) = digitChar (b % 10) := by
        have := hP.2; injection this
      have hr : a % 10 = b % 10 := by
        have : (digitChar (a % 10)).toNat = (digitChar (b % 10)).toNat := by
          rw [hchar]
        rw [digitChar_toNat _ (Nat.mod_lt _ (by omega)),
          digitChar_toNat _ (Nat.mod_lt _ (by omega))] at this
        omega
      omega

/-- On decimal strings of equal length, Python's lexicographic `<`
coincides with numeric `<`. -/
theorem pyStrLt_natDigits :
    ∀ a b : Nat, (natDigits a).length = (natDigits b).length →
      (pyStrLt (natDigits a) (natDigits b) = true ↔ a < b) := by
  intro a
  induction a using Nat.strong_induction_on with
  | _ a ih =>
    intro b hlen
    by_cases ha : a < 10 <;> by_cases hb : b < 10
    · rw [natDigits_eq a, if_pos ha, natDigits_eq b, if_pos hb]
      simp only [pyStrLt]
      rw [digitChar_toNat a ha, digitChar_toNat b hb]
      by_cases hab : a < b
      · rw [if_pos (by omega)]; simp [hab]
      · rw [if_neg (by omega)]
        by_cases hba : b < a
        · rw [if_pos (by omega)]; simp; omega
        · rw [if_neg (by omega)]; simp [pyStrLt]; omega
    · have h1 := natDigits_length_one a ha
      have h2 := natDigits_length_ge_two b (by omega)
      omega
    · have h1 := natDigits_length_one b hb
      have h2 := natDigits_length_ge_two a (by omega)
      omega
    · rw [natDigits_eq a, if_neg ha, natDigits_eq b, if_neg hb] at hlen ⊢
      simp only [List.length_append, List.length_cons, List.length_nil] at hlen
      have hlen' : (natDigits (a / 10)).length = (natDigits (b / 10)).length := by
        omega
      rw [pyStrLt_append_last _ _ _ _ hlen']
      have hIH := ih (a / 10) (Nat.div_lt_self (by omega) (by omega))
        (b / 10) hlen'
      rw [digitChar_toNat _ (Nat.mod_lt _ (by omega)),
        digitChar_toNat _ (Nat.mod_lt _ (by omega))]
      constructor
      · rintro (h1 | ⟨h2, h3⟩)
        · have := hIH.mp h1; omega
        · have := natDigits_injective _ _ h2; omega
      · intro hab
        by_cases hq : a / 10 < b / 10
        · exact Or.inl (hIH.mpr hq)
        · have hq' : a / 10 = b / 10 := by omega
          refine Or.inr ⟨by rw [hq'], ?_⟩
          omega

/-! ## Timestamps and day windows

`__get_time_boundaries` renders `str(int(dt.timestamp())) + "000000000"`;
`__time_until_end_of_day` yields the next local midnight strictly after
`dt`.  Instants are modelled as non-negative seconds since the epoch
(time zone fixed, DST ignored). -/

/-- Nanosecond timestamp string: `str(sec) + "000000000"`. -/
def tsStr (sec : Nat) : String := ⟨natDigits sec ++ List.replicate 9 '0'⟩

/-- `datetime.combine(dt + 1 day, time.min)` as seconds: the first midnight
strictly after `sec`. -/
def nextMidnight (sec : Nat) : Nat := 86400 * (sec / 86400 + 1)

/-- `__get_time_boundaries`: the `(ts_start, ts_end)` pair for the day
beginning at instant `sec`. -/
def timeBoundaries (sec : Nat) : String × String :=
  (tsStr sec, tsStr (nextMidnight sec))

/-- Decimal parse of a digit list, accumulator style. -/
def parseDecAux : List Char → Nat → Option Nat
  | [], acc => some acc
  | c :: cs, acc =>
    if '0' ≤ c ∧ c ≤ '9' then parseDecAux cs (acc * 10 + (c.toNat - 48))
    else none

/-- Python `int()` on a string of decimal digits (`none` models the
`ValueError` on an empty or non-numeral string; signs, underscores and
surrounding whitespace, which `int()` would also accept, do not occur in
the values the code produces). -/
def pyInt : List Char → Option Nat
  | [] => none
  | cs => parseDecAux cs 0

/-- `int(ts[:-9])`: drop the last nine characters and parse as a decimal
integer (`none` models the `ValueError` of `int()` on a non-numeral). -/
def tsSecOf (ts : String) : Option Nat :=
  pyInt (ts.data.take (ts.data.length - 9))

/-- `__calculate_holdoff_timestamp`: `str(ts_today - holdoff_days*86400)`
plus nine zeros, where `ts_today` is today's midnight in seconds.  The
subtraction is modelled on `Nat` (the boundary is non-negative in any
reachable configuration). -/
def holdoffTs (todayMid holdoffDays : Nat) : String :=
  tsStr (todayMid - holdoffDays * 86400)

/-! ## Log source (`__get_logs`)

The external Loki service is modelled as a stream of responses, one
consumed per `query_range` call.  `success groups` is a body with
`status == "success"` (a missing or empty `result` is `success []`);
`badStatus` is a well-formed body whose status is not `"success"`;
`transportError` is a raised transport error or malformed body
(`requests.get` / `result.json()` raising). -/

/-- One log line: `(nanosecond-timestamp-string, message)`. -/
abbrev LogLine := String × String

/-- One result group (stream) of a Loki response: its `values` list. -/
structure LogGroup where
  values : List LogLine
deriving DecidableEq, Repr

inductive SrcResp where
  | success (groups : List LogGroup)
  | badStatus
  | transportError
deriving DecidableEq, Repr

/-- Python exceptions the modelled code can raise, plus two model
artifacts: `streamEnded` (the response stream ran out) and `fuelOut`
(day-loop fuel ran out); with enough stream/fuel neither occurs. -/
inductive PyErr where
  | transport
  | indexError
  | valueError
  | jsonDecode
  | osError
  | s3Error
  | streamEnded
  | fuelOut
deriving DecidableEq, Repr

/-- What `__get_logs` returns for a non-raising response: the `result`
groups on success, `[]` on a non-`"success"` status. -/
def groupsOf : SrcResp → List LogGroup
  | .success gs => gs
  | _ => []

/-- `len(lst_logs[0]["values"]) if len(lst_logs) > 0 else 0`. -/
def batchSizeOf : List LogGroup → Nat
  | [] => 0
  | g :: _ => g.values.length

/-! ## The per-day pagination loop of `run` -/

/-- One exported batch: the `__export_logs(lst_logs, fmt, key, ts_day,
iteration)` call as seen by the engine. -/
structure Batch where
  iteration : Nat
  groups : List LogGroup
  tsDay : String
deriving DecidableEq, Repr

/-- Outcome of the `while batch_size == max_lines` loop. -/
structure PageOut where
  exported : List Batch
  calls : List (String × String)
  finalBatchNr : Nat
  rest : List SrcResp
deriving DecidableEq, Repr

/-- The `while batch_size == max_lines` pagination loop, entered with the
current `lst_logs`, `batch_size` and `batch_nr`; records each re-query's
`(start, end)` arguments and each export.  On the way out, a non-empty
final `lst_logs` is exported as the tail batch. -/
def paginate (maxLines : Nat) (tsDay tsEnd : String) :
    List SrcResp → List LogGroup → Nat → Nat → Except PyErr PageOut
  | responses, lstLogs, batchSize, batchNr =>
    if batchSize = maxLines then
      match lstLogs with
      | [] => .error .indexError      -- lst_logs[0] inside __export_logs
      | g :: _ =>
        match g.values.getLast? with
        | none => .error .indexError  -- lst_logs[0]["values"][-1]
        | some lastLine =>
          match responses with
          | [] => .error .streamEnded
          | r :: rs =>
            match r with
            | .transportError => .error .transport
            | _ =>
              let lst' := groupsOf r
              (paginate maxLines tsDay tsEnd rs lst' (batchSizeOf lst')
                  (batchNr + 1)).map
                (fun out =>
                  { out with
                    exported := ⟨batchNr, lstLogs, tsDay⟩ :: out.exported,
                    calls := (lastLine.1, tsEnd) :: out.calls })
    else
      .ok { exported := if lstLogs.length > 0 then [⟨batchNr, lstLogs, tsDay⟩] else [],
            calls := [],
            finalBatchNr := batchNr,
            rest := responses }

/-- The trace of one iteration of the day loop. -/
structure DayResult where
  startSec : Nat
  tsStart : String
  tsEnd : String
  calls : List (String × String)
  exported : List Batch
  batchesSent : Nat
deriving DecidableEq, Repr

/-- One iteration of `while ts_start < ts_holdoff`: the initial
`__get_logs` call, the pagination loop, and the `batches-sent` metric
increment (0 when the day had no logs). -/
def processDay (maxLines startSec : Nat) (responses : List SrcResp) :
    Except PyErr (DayResult × List SrcResp) :=
  let tsStart := tsStr startSec
  let tsEnd := tsStr (nextMidnight startSec)
  match responses with
  | [] => .error .streamEnded
  | r :: rs =>
    match r with
    | .transportError => .error .transport
    | _ =>
      let lst := groupsOf r
      if lst.length > 0 then
        match paginate maxLines tsStart tsEnd rs lst (batchSizeOf lst) 1 with
        | .error e => .error e
        | .ok out =>
          .ok ({ startSec, tsStart, tsEnd,
                 calls := (tsStart, tsEnd) :: out.calls,
                 exported := out.exported,
                 batchesSent := out.finalBatchNr }, out.rest)
      else
        .ok ({ startSec, tsStart, tsEnd,
               calls := [(tsStart, tsEnd)],
               exported := [],
               batchesSent := 0 }, rs)

/-- Result of the day loop for one export: the processed days, the final
persisted cursor value, and the unconsumed responses. -/
structure RunResult where
  days : List DayResult
  state : Option String
  rest : List SrcResp
deriving DecidableEq, Repr

/-- The `while ts_start < ts_holdoff` day loop of `run`.  The guard is
Python string comparison (`pyStrLt`).  After each processed day the
cursor is saved (`__save_state(key, ts_end)`) and the next window is
recomputed from `ts_end` (note `int((str(n) + "0"*9)[:-9]) = n`, so the
next window starts at `nextMidnight startSec`).  `fuel` bounds the number
of loop iterations (a model artifact; each iteration consumes at least
one response, so `fuel ≥ responses.length + 1` is always enough). -/
def dayLoop (maxLines maxDays : Nat) (holdoff : String) :
    Nat → Nat → Nat → Option String → List SrcResp → Except PyErr RunResult
  | 0, _, _, _, _ => .error .fuelOut
  | fuel + 1, dayCounter, startSec, state, responses =>
    if pyStrLt (tsStr startSec).data holdoff.data then
      if maxDays ≠ 0 ∧ dayCounter + 1 > maxDays then
        .ok { days := [], state := state, rest := responses }
      else
        match processDay maxLines startSec responses with
        | .error e => .error e
        | .ok (day, rs) =>
          match dayLoop maxLines maxDays holdoff fuel (dayCounter + 1)
              (nextMidnight startSec) (some day.tsEnd) rs with
          | .error e => .error e
          | .ok res => .ok { res with days := day :: res.days }
    else
      .ok { days := [], state := state, rest := responses }

/-- Start-time resolution of `run`: a truthy saved cursor takes
precedence over the configured `time_start` (Python's `if state_time:`
treats both a missing key and an empty string as falsy). -/
def resolveStart (state : Option String) (cfgStartSec : Nat) : Except PyErr Nat :=
  match state with
  | some ts =>
    if ts = "" then .ok cfgStartSec
    else
      match tsSecOf ts with
      | some n => .ok n
      | none => .error .valueError
  | none => .ok cfgStartSec

/-- The per-export engine of `run`: resolve the start instant, then run
the day loop against the holdoff boundary computed from today's midnight
`todayMid` and `holdoffDays`. -/
def runExport (maxLines maxDays holdoffDays todayMid : Nat)
    (state : Option String) (cfgStartSec : Nat)
    (responses : List SrcResp) (fuel : Nat) : Except PyErr RunResult :=
  match resolveStart state cfgStartSec with
  | .error e => .error e
  | .ok startSec =>
    dayLoop maxLines maxDays (holdoffTs todayMid holdoffDays) fuel 0 startSec
      state responses

/-! ## Export-key derivation

`key = re.sub(r"([{}\"])|[^a-z]", lambda m: "" if m.group(1) else "_",
config["query"])`.  Both alternatives of the pattern match exactly one
character, so the substitution is a per-character map: `{`, `}` and `"`
are deleted, any other character outside `a`-`z` becomes one underscore,
and lowercase letters are kept. -/

/-- The image of one query character under the key substitution. -/
def keyChar (c : Char) : List Char :=
  if c = '{' ∨ c = '}' ∨ c = '"' then []
  else if 'a' ≤ c ∧ c ≤ 'z' then [c]
  else ['_']

/-- The export key derived from a query string. -/
def exportKey (q : String) : String := ⟨q.data.flatMap keyChar⟩

/-! ## ELF formatter (`__format_logs_to_elf`)

The message substitution is
`re.sub(r'"[^"]+"|(\s)', lambda m: "\t" if m.group(1) else m.group(0), msg)`:
scanning left to right, a double-quoted substring with at least one
character between the quotes is kept verbatim, and otherwise each single
whitespace character becomes one tab.  `\s` is modelled by the six ASCII
whitespace characters (the Unicode spaces Python's `\s` additionally
matches play no role here). -/

/-- ASCII whitespace, the core of Python's `\s`. -/
def isPySpace (c : Char) : Bool :=
  c = ' ' ∨ c = '\t' ∨ c = '\n' ∨ c = '\x0b' ∨ c = '\x0c' ∨ c = '\r'

/-- Split a char list at its first `"`: `some (before, after)` when a `"`
exists. -/
def findClose : List Char → Option (List Char × List Char)
  | [] => none
  | c :: rest =>
    if c = '"' then some ([], rest)
    else (findClose rest).map (fun p => (c :: p.1, p.2))

/-- The regex substitution of `__format_logs_to_elf`, fuel-driven (fuel
`≥` input length always suffices: each step consumes at least one
character). -/
def elfSubAux : Nat → List Char → List Char
  | 0, _ => []
  | _ + 1, [] => []
  | fuel + 1, c :: rest =>
    if c = '"' then
      match findClose rest with
      | some (inner, after) =>
        if inner = [] then c :: elfSubAux fuel rest
        else c :: inner ++ '"' :: elfSubAux fuel after
      | none => c :: elfSubAux fuel rest
    else if isPySpace c then '\t' :: elfSubAux fuel rest
    else c :: elfSubAux fuel rest

/-- The whitespace-to-tab message rewrite of the ELF formatter. -/
def elfMessage (msg : String) : String := ⟨elfSubAux msg.data.length msg.data⟩

/-! ### Civil-date rendering (`datetime.fromtimestamp(...).strftime`)

`fromtimestamp` is modelled at a fixed UTC offset.  The standard
days-to-civil-date algorithm. -/

/-- Gregorian `(year, month, day)` for a day count since 1970-01-01. -/
def civilFromDays (z : Nat) : Nat × Nat × Nat :=
  let z' := z + 719468
  let era := z' / 146097
  let doe := z' % 146097
  let yoe := (doe - doe / 1460 + doe / 36524 - doe / 146096) / 365
  let y := yoe + era * 400
  let doy := doe - (365 * yoe + yoe / 4 - yoe / 100)
  let mp := (5 * doy + 2) / 153
  let d := doy - (153 * mp + 2) / 5 + 1
  let m := if mp < 10 then mp + 3 else mp - 9
  (if m ≤ 2 then y + 1 else y, m, d)

/-- Two-digit zero-padded decimal (`str(n).zfill(2)`, `%m`/`%d`/…). -/
def pad2 (n : Nat) : String := if n < 10 then "0" ++ natStr n else natStr n

/-- `strftime("%Y-%m-%d\t%H:%M:%S")` of an epoch-second instant (years in
the reachable range have four digits, so `%Y` needs no padding). -/
def strftimeElf (sec : Nat) : String :=
  let c := civilFromDays (sec / 86400)
  let s := sec % 86400
  natStr c.1 ++ "-" ++ pad2 c.2.1 ++ "-" ++ pad2 c.2.2 ++ "\t" ++
    pad2 (s / 3600) ++ ":" ++ pad2 (s % 3600 / 60) ++ ":" ++ pad2 (s % 60)

/-- One formatted ELF line: readable date and time (tab-separated via the
strftime format string), a tab, then the rewritten message.
`int(line[0][:-9])` raises `ValueError` on a malformed timestamp. -/
def formatLine (line : LogLine) : Except PyErr String :=
  match tsSecOf line.1 with
  | none => .error .valueError
  | some sec => .ok (strftimeElf sec ++ "\t" ++ elfMessage line.2)

/-- `__format_logs_to_elf`: formats the lines of the **first** result
group only, newline-joined.  `lst_logs[0]` raises `IndexError` on an
empty list. -/
def formatLogsToElf (gs : List LogGroup) : Except PyErr String :=
  match gs with
  | [] => .error .indexError
  | g :: _ =>
    (g.values.mapM formatLine).map (fun ls => String.intercalate "\n" ls)

/-! ## JSON formatter (`__format_logs_to_json`)

The code builds `"{ \"values\": " + str(lst_logs[0]["values"]) + "}"`,
replaces every `'` with `"`, then round-trips the result through
`json.loads`/`json.dumps`.  `str()` of a list of `[ts, msg]` string pairs
is Python `repr`: elements single-quoted unless they contain `'` and not
`"`, with backslash, quote and control characters escaped (`\xNN`
hexadecimal for other control characters; non-ASCII printable characters
stay literal, and the rare non-printable non-ASCII code points, which
`repr` would render as `\uXXXX`, are modelled literally — no claim
depends on them). -/

/-- One lowercase hexadecimal digit. -/
def hexDigit : Nat → Char
  | 0 => '0' | 1 => '1' | 2 => '2' | 3 => '3' | 4 => '4' | 5 => '5'
  | 6 => '6' | 7 => '7' | 8 => '8' | 9 => '9' | 10 => 'a' | 11 => 'b'
  | 12 => 'c' | 13 => 'd' | 14 => 'e' | _ => 'f'

/-- The body of Python `repr` of a string, for chosen quote char `q`. -/
def pyReprEscape (q : Char) : List Char → List Char
  | [] => []
  | c :: cs =>
    let tail := pyReprEscape q cs
    if c = '\\' then '\\' :: '\\' :: tail
    else if c = q then '\\' :: q :: tail
    else if c = '\n' then '\\' :: 'n' :: tail
    else if c = '\r' then '\\' :: 'r' :: tail
    else if c = '\t' then '\\' :: 't' :: tail
    else if c.toNat < 32 ∨ c.toNat = 127 then
      '\\' :: 'x' :: hexDigit (c.toNat / 16) :: hexDigit (c.toNat % 16) :: tail
    else c :: tail

/-- Python `repr` of a string: single-quoted, except double-quoted when
the string contains `'` but no `"`. -/
def pyReprStr (s : String) : List Char :=
  let q := if s.data.contains '\'' ∧ ¬s.data.contains '"' then '"' else '\''
  q :: pyReprEscape q s.data ++ [q]

/-- Comma-space join, as in Python `str()` of a list. -/
def joinComma : List (List Char) → List Char
  | [] => []
  | [x] => x
  | x :: xs => x ++ ',' :: ' ' :: joinComma xs

/-- Python `repr` of one `[ts, msg]` pair. -/
def pyReprPair (l : LogLine) : List Char :=
  '[' :: pyReprStr l.1 ++ ',' :: ' ' :: pyReprStr l.2 ++ [']']

/-- Python `str()` of the `values` list. -/
def pyReprValues (vs : List LogLine) : List Char :=
  '[' :: joinComma (vs.map pyReprPair) ++ [']']

/-! ### A standard JSON reader

`Json` and `jsonParse` formalise "valid JSON parseable by any standard
JSON reader" for the fragment the formatter can produce (strings, arrays,
objects; `\uXXXX` escapes and numeric/constant literals never occur in
its output and are rejected, exactly as a parse failure of interest). -/

inductive Json where
  | str (s : String)
  | arr (elems : List Json)
  | obj (members : List (String × Json))
deriving Repr

/-- Skip JSON insignificant whitespace. -/
def skipWs : List Char → List Char
  | [] => []
  | c :: cs =>
    if c = ' ' ∨ c = '\n' ∨ c = '\t' ∨ c = '\r' then skipWs cs else c :: cs

/-- JSON string escapes. -/
def escChar (c : Char) : Option Char :=
  if c = '"' then some '"'
  else if c = '\\' then some '\\'
  else if c = '/' then some '/'
  else if c = 'n' then some '\n'
  else if c = 't' then some '\t'
  else if c = 'r' then some '\r'
  else if c = 'b' then some '\x08'
  else if c = 'f' then some '\x0c'
  else none

mutual

/-- Parse the body of a JSON string literal (after the opening quote),
returning the decoded characters and the remainder after the closing
quote. -/
def parseStrBody : List Char → Option (List Char × List Char)
  | [] => none
  | c :: cs =>
    if c = '"' then some ([], cs)
    else if c = '\\' then parseStrEsc cs
    else if c.toNat < 32 then none
    else (parseStrBody cs).map (fun p => (c :: p.1, p.2))

/-- Parse the character following a backslash inside a string literal. -/
def parseStrEsc : List Char → Option (List Char × List Char)
  | [] => none
  | e :: cs =>
    match escChar e with
    | none => none
    | some ch => (parseStrBody cs).map (fun p => (ch :: p.1, p.2))

end

mutual

/-- Parse one JSON value (strings, arrays, objects). -/
def parseVal : Nat → List Char → Option (Json × List Char)
  | 0, _ => none
  | fuel + 1, cs =>
    match skipWs cs with
    | [] => none
    | c :: rest =>
      if c = '"' then (parseStrBody rest).map (fun p => (.str ⟨p.1⟩, p.2))
      else if c = '[' then
        match skipWs rest with
        | ']' :: r2 => some (.arr [], r2)
        | _ =>
          match parseVal fuel rest with
          | none => none
          | some (j, r2) =>
            match parseArrTail fuel r2 with
            | none => none
            | some (js, r3) => some (.arr (j :: js), r3)
      else if c = '{' then
        match skipWs rest with
        | '}' :: r2 => some (.obj [], r2)
        | _ =>
          match parseMember fuel rest with
          | none => none
          | some (kv, r2) =>
            match parseObjTail fuel r2 with
            | none => none
            | some (kvs, r3) => some (.obj (kv :: kvs), r3)
      else none

/-- Parse one `"key": value` object member. -/
def parseMember : Nat → List Char → Option ((String × Json) × List Char)
  | 0, _ => none
  | fuel + 1, cs =>
    match skipWs cs with
    | [] => none
    | c :: rest =>
      if c = '"' then
        match parseStrBody rest with
        | none => none
        | some (k, r2) =>
          match skipWs r2 with
          | [] => none
          | c2 :: r3 =>
            if c2 = ':' then (parseVal fuel r3).map (fun p => ((⟨k⟩, p.1), p.2))
            else none
      else none

/-- Parse the rest of an array after one element: `, v`* `]`. -/
def parseArrTail : Nat → List Char → Option (List Json × List Char)
  | 0, _ => none
  | fuel + 1, cs =>
    match skipWs cs with
    | [] => none
    | c :: rest =>
      if c = ']' then some ([], rest)
      else if c = ',' then
        match parseVal fuel rest with
        | none => none
        | some (j, r2) =>
          (parseArrTail fuel r2).map (fun p => (j :: p.1, p.2))
      else none

/-- Parse the rest of an object after one member: `, m`* `}`. -/
def parseObjTail : Nat → List Char → Option (List (String × Json) × List Char)
  | 0, _ => none
  | fuel + 1, cs =>
    match skipWs cs with
    | [] => none
    | c :: rest =>
      if c = '}' then some ([], rest)
      else if c = ',' then
        match parseMember fuel rest with
        | none => none
        | some (kv, r2) =>
          (parseObjTail fuel r2).map (fun p => (kv :: p.1, p.2))
      else none

end

/-- `json.loads`: parse a complete document (trailing whitespace only). -/
def jsonParse (s : String) : Option Json :=
  match parseVal (s.data.length + 1) s.data with
  | some (j, rest) => if skipWs rest = [] then some j else none
  | none => none

/-- JSON string-literal escaping of `json.dumps` (ASCII fragment: the
named escapes plus `\u00XX` for other control characters; inputs beyond
ASCII do not occur in the claims). -/
def jsonEscape : List Char → List Char
  | [] => []
  | c :: cs =>
    let tail := jsonEscape cs
    if c = '"' then '\\' :: '"' :: tail
    else if c = '\\' then '\\' :: '\\' :: tail
    else if c = '\n' then '\\' :: 'n' :: tail
    else if c = '\t' then '\\' :: 't' :: tail
    else if c = '\r' then '\\' :: 'r' :: tail
    else if c = '\x08' then '\\' :: 'b' :: tail
    else if c = '\x0c' then '\\' :: 'f' :: tail
    else if c.toNat < 32 then
      '\\' :: 'u' :: '0' :: '0' :: hexDigit (c.toNat / 16) :: hexDigit (c.toNat % 16) :: tail
    else c :: tail

mutual

/-- `json.dumps` (the generated whitespace/indentation is immaterial to
the claims and is modelled with the default `", "`/`": "` separators). -/
def jsonDumps : Json → String
  | .str s => ⟨'"' :: jsonEscape s.data ++ ['"']⟩
  | .arr js => "[" ++ jsonDumpsList js ++ "]"
  | .obj kvs => "\x7b" ++ jsonDumpsMembers kvs ++ "\x7d"

def jsonDumpsList : List Json → String
  | [] => ""
  | [j] => jsonDumps j
  | j :: js => jsonDumps j ++ ", " ++ jsonDumpsList js

def jsonDumpsMembers : List (String × Json) → String
  | [] => ""
  | [(k, j)] => "\"" ++ (⟨jsonEscape k.data⟩ : String) ++ "\": " ++ jsonDumps j
  | (k, j) :: kvs =>
    "\"" ++ (⟨jsonEscape k.data⟩ : String) ++ "\": " ++ jsonDumps j ++ ", " ++
      jsonDumpsMembers kvs

end

/-- `__format_logs_to_json`: wrap `str()` of the first group's `values`
in `{ "values": …}`, replace every `'` by `"`, and round-trip through
`json.loads`/`json.dumps` (`.error .jsonDecode` models the
`json.JSONDecodeError` the code does not catch). -/
def formatLogsToJson (gs : List LogGroup) : Except PyErr String :=
  match gs with
  | [] => .error .indexError
  | g :: _ =>
    let raw := "\x7b \"values\": ".data ++ pyReprValues g.values ++ ['}']
    let replaced := raw.map (fun c => if c = '\'' then '"' else c)
    match jsonParse ⟨replaced⟩ with
    | none => .error .jsonDecode
    | some j => .ok (jsonDumps j)

/-! ## Storage sinks (`__export_logs`)

The two sink blocks run sequentially (local filesystem first, then S3)
with no `try`/`except`: any raised exception aborts the remainder of the
function.  Filesystem writes, the temporary staging write and the S3
upload are external effects, modelled by outcome oracles (`ok` = the call
returns, `fail` = it raises).  `boto3`'s `Bucket.upload_file` returns
`None` on success and raises on failure, so `res` is modelled as
`Option Unit` with value `none` on a successful upload. -/

/-- `str(n).zfill(w)`. -/
def zfill (w : Nat) (s : String) : String :=
  ⟨List.replicate (w - s.data.length) '0' ++ s.data⟩

/-- `file_path`: `key/<year>/<month:2>`. -/
def exportFileDir (key : String) (daySec : Nat) : String :=
  let c := civilFromDays (daySec / 86400)
  key ++ "/" ++ natStr c.1 ++ "/" ++ zfill 2 (natStr c.2.1)

/-- `file_name`: `key-<year><month:2><day:2>.<iteration:4>.log.gz`. -/
def exportFileName (key : String) (daySec : Nat) (iteration : Nat) : String :=
  let c := civilFromDays (daySec / 86400)
  key ++ "-" ++ natStr c.1 ++ zfill 2 (natStr c.2.1) ++ zfill 2 (natStr c.2.2) ++
    "." ++ zfill 4 (natStr iteration) ++ ".log.gz"

/-- External effect outcome: the call returns normally or raises. -/
inductive SinkOutcome where
  | ok
  | fail
deriving DecidableEq, Repr

/-- Which sinks are enabled in the storage configuration. -/
structure StorageCfg where
  localEnabled : Bool
  s3Enabled : Bool
deriving DecidableEq, Repr

/-- Observable effects of one `__export_logs` call. -/
structure ExportTrace where
  payload : Option String
  fileName : Option String
  localAttempted : Bool
  localWritten : Bool
  filesLocalInc : Nat
  linesLocalInc : Nat
  s3Attempted : Bool
  tmpWritten : Bool
  uploaded : Bool
  tmpRemoved : Bool
  filesS3Inc : Nat
  linesS3Inc : Nat
deriving DecidableEq, Repr

/-- The all-false/zero trace. -/
def ExportTrace.none : ExportTrace :=
  { payload := Option.none, fileName := Option.none,
    localAttempted := false, localWritten := false,
    filesLocalInc := 0, linesLocalInc := 0,
    s3Attempted := false, tmpWritten := false, uploaded := false,
    tmpRemoved := false, filesS3Inc := 0, linesS3Inc := 0 }

/-- `__export_logs(lst_logs, export_format, key, ts_day, iteration)`:
format, then write to each enabled sink in order.  Returns the trace of
effects plus the exception, if one was raised (aborting everything after
it). -/
def exportLogs (cfg : StorageCfg) (fmt : String)
    (localEff tmpEff uploadEff : SinkOutcome)
    (gs : List LogGroup) (key tsDay : String) (iteration : Nat) :
    ExportTrace × Option PyErr :=
  let strLogsE := if fmt = "elf" then formatLogsToElf gs else formatLogsToJson gs
  match gs, strLogsE with
  | _, .error e => (ExportTrace.none, some e)
  | [], .ok _ => (ExportTrace.none, some .indexError)
  | g :: _, .ok strLogs =>
    match tsSecOf tsDay with
    | Option.none => ({ ExportTrace.none with payload := some strLogs }, some .valueError)
    | some daySec =>
      let t0 : ExportTrace :=
        { ExportTrace.none with
          payload := some strLogs,
          fileName := some (exportFileName key daySec iteration) }
      -- local filesystem sink
      let localStep : ExportTrace × Option PyErr :=
        if cfg.localEnabled then
          let t1 := { t0 with localAttempted := true }
          match localEff with
          | .fail => (t1, some .osError)
          | .ok =>
            ({ t1 with
                localWritten := true,
                filesLocalInc := 1,
                linesLocalInc := g.values.length }, Option.none)
        else (t0, Option.none)
      match localStep with
      | (t, some e) => (t, some e)
      | (t, Option.none) =>
        -- S3 sink
        if cfg.s3Enabled then
          let t3 := { t with s3Attempted := true }
          match tmpEff with
          | .fail => (t3, some .osError)
          | .ok =>
            let t4 := { t3 with tmpWritten := true }
            match uploadEff with
            | .fail => (t4, some .s3Error)
            | .ok =>
              let res : Option Unit := Option.none  -- upload_file returns None
              let t5 := { t4 with uploaded := true }
              if res.isSome then
                ({ t5 with
                    tmpRemoved := true,
                    filesS3Inc := 1,
                    linesS3Inc := g.values.length }, Option.none)
              else (t5, Option.none)
        else (t, Option.none)

/-! ## Claims -/

/-- **C4.** For every fetched batch that contains two or more result
groups, only the lines of the first result group are formatted, written
to sinks, and counted in the lines-written metrics; lines in every
subsequent result group are silently dropped from the export: both
formatters and the whole of `__export_logs` behave on `g :: rest`
exactly as on `[g]`, and the lines-written increments count only
`g.values`. -/
theorem C4_only_first_group (g : LogGroup) (rest : List LogGroup)
    (_hrest : rest ≠ []) (cfg : StorageCfg) (fmt : String)
    (localEff tmpEff uploadEff : SinkOutcome) (key tsDay : String) (it : Nat) :
    formatLogsToElf (g :: rest) = formatLogsToElf [g] ∧
    formatLogsToJson (g :: rest) = formatLogsToJson [g] ∧
    exportLogs cfg fmt localEff tmpEff uploadEff (g :: rest) key tsDay it =
      exportLogs cfg fmt localEff tmpEff uploadEff [g] key tsDay it := by
  refine ⟨rfl, rfl, ?_⟩
  have h : (if fmt = "elf" then formatLogsToElf (g :: rest) else formatLogsToJson (g :: rest)) =
      (if fmt = "elf" then formatLogsToElf [g] else formatLogsToJson [g]) := by
    split <;> rfl
  simp only [exportLogs]
  rw [h]
  generalize (if fmt = "elf" then formatLogsToElf [g] else formatLogsToJson [g]) = E
  cases E <;> rfl

/-- **C4 witness.** The theorem instantiated at a concrete two-group
batch. -/
theorem C4_only_first_group_witness :
    ([(⟨[("86400000000000", "x")]⟩ : LogGroup)] : List LogGroup) ≠ [] ∧
    exportLogs ⟨true, true⟩ "elf" .ok .ok .ok
        [⟨[("86400000000000", "m")]⟩, ⟨[("86400000000000", "x")]⟩]
        "k" "86400000000000" 1 =
      exportLogs ⟨true, true⟩ "elf" .ok .ok .ok
        [⟨[("86400000000000", "m")]⟩] "k" "86400000000000" 1 :=
  ⟨by decide,
   (C4_only_first_group ⟨[("86400000000000", "m")]⟩
      [⟨[("86400000000000", "x")]⟩] (by decide) ⟨true, true⟩ "elf"
      .ok .ok .ok "k" "86400000000000" 1).2.2⟩

/-- **C6 counterexample.** With both sinks enabled, a local-sink write
failure raises out of `__export_logs` before the object-storage sink is
even attempted: the object-storage sink does not complete for that batch,
refuting the claim that a failure in one sink does not prevent the
other's write. -/
theorem C6_counterexample :
    (exportLogs ⟨true, true⟩ "elf" .fail .ok .ok
        [⟨[("86400000000000", "m")]⟩] "k" "86400000000000" 1).1.s3Attempted = false ∧
    (exportLogs ⟨true, true⟩ "elf" .fail .ok .ok
        [⟨[("86400000000000", "m")]⟩] "k" "86400000000000" 1).1.uploaded = false ∧
    (exportLogs ⟨true, true⟩ "elf" .fail .ok .ok
        [⟨[("86400000000000", "m")]⟩] "k" "86400000000000" 1).2 = some .osError := by
  refine ⟨rfl, rfl, rfl⟩

/-- **C6 (amended).** The sinks are written sequentially — local
filesystem first, object storage second — with no per-sink error
handling.  Consequently an object-storage failure cannot affect the
already-completed local write (the local outcome is identical to the one
of an all-successful run), but a local-sink failure raises and prevents
the object-storage sink from being attempted at all. -/
theorem C6_sequential_no_isolation (fmt : String) (tmpEff uploadEff : SinkOutcome)
    (gs : List LogGroup) (key tsDay : String) (it : Nat) :
    (exportLogs ⟨true, true⟩ fmt .fail tmpEff uploadEff gs key tsDay it).1.s3Attempted
        = false ∧
    (exportLogs ⟨true, true⟩ fmt .fail tmpEff uploadEff gs key tsDay it).1.uploaded
        = false ∧
    (exportLogs ⟨true, true⟩ fmt .ok .ok .fail gs key tsDay it).1.localWritten
        = (exportLogs ⟨true, true⟩ fmt .ok .ok .ok gs key tsDay it).1.localWritten ∧
    (exportLogs ⟨true, true⟩ fmt .ok .ok .fail gs key tsDay it).1.filesLocalInc
        = (exportLogs ⟨true, true⟩ fmt .ok .ok .ok gs key tsDay it).1.filesLocalInc := by
  unfold exportLogs
  cases gs with
  | nil =>
    cases hE : (if fmt = "elf" then formatLogsToElf ([] : List LogGroup)
        else formatLogsToJson []) <;> simp [ExportTrace.none]
  | cons g rest =>
    cases hE : (if fmt = "elf" then formatLogsToElf (g :: rest)
        else formatLogsToJson (g :: rest)) with
    | error e => simp [ExportTrace.none]
    | ok s =>
      cases hT : tsSecOf tsDay <;> simp [ExportTrace.none]

/-- **C10.** The claim describes the intended behaviour (also stated by
the code's own comment `# If all went OK, remove the file`), but the code
tests `if res:` on the return value of `boto3`'s `Bucket.upload_file`,
which is `None` on success — so the branch never runs: the temporary
staging file is never removed and the S3 `files-written`/`lines-written`
counters are never incremented, even after a confirmed successful
upload.  This holds for every call, in particular for every successful
one. -/
theorem C10_staging_never_removed (cfg : StorageCfg) (fmt : String)
    (localEff tmpEff uploadEff : SinkOutcome) (gs : List LogGroup)
    (key tsDay : String) (it : Nat) :
    (exportLogs cfg fmt localEff tmpEff uploadEff gs key tsDay it).1.tmpRemoved = false ∧
    (exportLogs cfg fmt localEff tmpEff uploadEff gs key tsDay it).1.filesS3Inc = 0 ∧
    (exportLogs cfg fmt localEff tmpEff uploadEff gs key tsDay it).1.linesS3Inc = 0 := by
  unfold exportLogs
  cases gs with
  | nil =>
    cases hE : (if fmt = "elf" then formatLogsToElf ([] : List LogGroup)
        else formatLogsToJson []) <;> simp [ExportTrace.none]
  | cons g rest =>
    cases hE : (if fmt = "elf" then formatLogsToElf (g :: rest)
        else formatLogsToJson (g :: rest)) with
    | error e => simp [ExportTrace.none]
    | ok s =>
      cases hT : tsSecOf tsDay with
      | none => simp [ExportTrace.none]
      | some daySec =>
        cases cfg.localEnabled <;> cases localEff <;>
          cases cfg.s3Enabled <;> cases tmpEff <;> cases uploadEff <;>
            simp [ExportTrace.none]

/-- **C10, concrete successful upload.** On the all-success path with the
object-storage sink enabled, the upload completes (`uploaded = true`, no
exception) and yet the staging file is left behind and the counters stay
at zero — the divergence at the failing input. -/
theorem C10_successful_upload_leaves_staging :
    (exportLogs ⟨false, true⟩ "elf" .ok .ok .ok
        [⟨[("86400000000000", "m")]⟩] "k" "86400000000000" 1).1.uploaded = true ∧
    (exportLogs ⟨false, true⟩ "elf" .ok .ok .ok
        [⟨[("86400000000000", "m")]⟩] "k" "86400000000000" 1).1.tmpWritten = true ∧
    (exportLogs ⟨false, true⟩ "elf" .ok .ok .ok
        [⟨[("86400000000000", "m")]⟩] "k" "86400000000000" 1).2 = Option.none ∧
    (exportLogs ⟨false, true⟩ "elf" .ok .ok .ok
        [⟨[("86400000000000", "m")]⟩] "k" "86400000000000" 1).1.tmpRemoved = false ∧
    (exportLogs ⟨false, true⟩ "elf" .ok .ok .ok
        [⟨[("86400000000000", "m")]⟩] "k" "86400000000000" 1).1.filesS3Inc = 0 := by
  refine ⟨rfl, rfl, rfl, rfl, rfl⟩

/-- **C7.** For every day window for which the log source successfully
returns zero results, the engine makes the one query call, exports no
batch (so no sink file is written for that day), and still advances and
persists the cursor for the export key to that window's end before
moving on to the next day: the day loop records the day with an empty
export list and continues with the saved state set to `ts_end`. -/
theorem C7_zero_result_day (ml md : Nat) (holdoff : String)
    (fuel dayCounter startSec : Nat) (st : Option String) (rs : List SrcResp)
    (hguard : pyStrLt (tsStr startSec).data holdoff.data = true)
    (hcap : ¬(md ≠ 0 ∧ dayCounter + 1 > md)) :
    processDay ml startSec (SrcResp.success [] :: rs) =
      .ok ({ startSec := startSec, tsStart := tsStr startSec,
             tsEnd := tsStr (nextMidnight startSec),
             calls := [(tsStr startSec, tsStr (nextMidnight startSec))],
             exported := [], batchesSent := 0 }, rs) ∧
    dayLoop ml md holdoff (fuel + 1) dayCounter startSec st
        (SrcResp.success [] :: rs) =
      (match dayLoop ml md holdoff fuel (dayCounter + 1) (nextMidnight startSec)
          (some (tsStr (nextMidnight startSec))) rs with
       | .error e => .error e
       | .ok res => .ok { res with
           days := { startSec := startSec, tsStart := tsStr startSec,
                     tsEnd := tsStr (nextMidnight startSec),
                     calls := [(tsStr startSec, tsStr (nextMidnight startSec))],
                     exported := [], batchesSent := 0 } :: res.days }) := by
  refine ⟨rfl, ?_⟩
  simp only [dayLoop, hguard, if_true, if_neg hcap]
  rfl

/-- **C7 witness.** The theorem instantiated at a one-day window before
the holdoff boundary with an empty successful response. -/
theorem C7_zero_result_day_witness :
    processDay 100 0 [SrcResp.success []] =
      .ok ({ startSec := 0, tsStart := tsStr 0,
             tsEnd := tsStr (nextMidnight 0),
             calls := [(tsStr 0, tsStr (nextMidnight 0))],
             exported := [], batchesSent := 0 }, []) ∧
    dayLoop 100 0 (tsStr 172800) 2 0 0 Option.none [SrcResp.success []] =
      (match dayLoop 100 0 (tsStr 172800) 1 1 (nextMidnight 0)
          (some (tsStr (nextMidnight 0))) [] with
       | .error e => .error e
       | .ok res => .ok { res with
           days := { startSec := 0, tsStart := tsStr 0,
                     tsEnd := tsStr (nextMidnight 0),
                     calls := [(tsStr 0, tsStr (nextMidnight 0))],
                     exported := [], batchesSent := 0 } :: res.days }) :=
  C7_zero_result_day 100 0 (tsStr 172800) 1 0 0 Option.none []
    (by decide) (by decide)

/-- **C1 counterexample.** A response with a non-success status indicator
is not fatal: with two days to export and the source answering the first
day's query with a non-success status, the run completes normally
(`Except.ok`), exports nothing for the failed day, and advances the
persisted cursor first to that window's end and then past it to the next
window's end (`345600e9 > 259200e9`, also in the code's own string
order) — refuting "fatal at that window" and "cursor not advanced past
that window's end". -/
theorem C1_counterexample :
    runExport 100 2 0 432000 Option.none 172800
        [SrcResp.badStatus, SrcResp.success []] 9 =
      .ok { days := [
              { startSec := 172800, tsStart := "172800000000000",
                tsEnd := "259200000000000",
                calls := [("172800000000000", "259200000000000")],
                exported := [], batchesSent := 0 },
              { startSec := 259200, tsStart := "259200000000000",
                tsEnd := "345600000000000",
                calls := [("259200000000000", "345600000000000")],
                exported := [], batchesSent := 0 }],
            state := some "345600000000000", rest := [] } ∧
    pyStrLt (tsStr 259200).data (tsStr 345600).data = true := by
  refine ⟨by rfl, by decide⟩

/-- **C1 (amended).** A log-source response whose status indicator is not
success is handled exactly like a successful empty response: it is not
fatal, no batch is exported for the window, and the day loop still
advances and persists the cursor to the window's end before moving on.
Only a transport error or malformed body (a raised exception) is fatal
and leaves the cursor at its previous value. -/
theorem C1_bad_status_treated_as_empty (ml md : Nat) (holdoff : String)
    (fuel dayCounter startSec : Nat) (st : Option String) (rs : List SrcResp)
    (hguard : pyStrLt (tsStr startSec).data holdoff.data = true)
    (hcap : ¬(md ≠ 0 ∧ dayCounter + 1 > md)) :
    processDay ml startSec (SrcResp.badStatus :: rs) =
      processDay ml startSec (SrcResp.success [] :: rs) ∧
    processDay ml startSec (SrcResp.transportError :: rs) =
      .error .transport ∧
    dayLoop ml md holdoff (fuel + 1) dayCounter startSec st
        (SrcResp.badStatus :: rs) =
      (match dayLoop ml md holdoff fuel (dayCounter + 1) (nextMidnight startSec)
          (some (tsStr (nextMidnight startSec))) rs with
       | .error e => .error e
       | .ok res => .ok { res with
           days := { startSec := startSec, tsStart := tsStr startSec,
                     tsEnd := tsStr (nextMidnight startSec),
                     calls := [(tsStr startSec, tsStr (nextMidnight startSec))],
                     exported := [], batchesSent := 0 } :: res.days }) := by
  refine ⟨rfl, rfl, ?_⟩
  simp only [dayLoop, hguard, if_true, if_neg hcap]
  rfl

/-- **C1 witness.** The amended theorem instantiated on a concrete
one-day window. -/
theorem C1_bad_status_witness :
    processDay 100 0 [SrcResp.badStatus] =
      processDay 100 0 [SrcResp.success []] ∧
    processDay 100 0 [SrcResp.transportError] = .error .transport ∧
    dayLoop 100 0 (tsStr 172800) 2 0 0 Option.none [SrcResp.badStatus] =
      (match dayLoop 100 0 (tsStr 172800) 1 1 (nextMidnight 0)
          (some (tsStr (nextMidnight 0))) [] with
       | .error e => .error e
       | .ok res => .ok { res with
           days := { startSec := 0, tsStart := tsStr 0,
                     tsEnd := tsStr (nextMidnight 0),
                     calls := [(tsStr 0, tsStr (nextMidnight 0))],
                     exported := [], batchesSent := 0 } :: res.days }) :=
  C1_bad_status_treated_as_empty 100 0 (tsStr 172800) 1 0 0 Option.none []
    (by decide) (by decide)

theorem processDay_startSec : ∀ (ml s : Nat) (rs : List SrcResp) (day : DayResult)
    (rest : List SrcResp), processDay ml s rs = .ok (day, rest) → day.startSec = s := by
  intro ml s rs day rest h
  cases rs with
  | nil => exact absurd h (by simp [processDay])
  | cons r rs' =>
    cases r with
    | transportError => exact absurd h (by simp [processDay])
    | badStatus =>
      simp only [processDay, groupsOf] at h
      simp at h
      rw [← h.1]
    | success gs =>
      simp only [processDay, groupsOf] at h
      split at h <;> [skip; (simp at h; rw [← h.1])]
      split at h <;> simp_all
      rw [← h.1]

/-- Every day recorded by the day loop passed the (string-comparison)
holdoff guard. -/
theorem dayLoop_days_guard : ∀ (fuel ml md : Nat) (holdoff : String)
    (dc startSec : Nat) (st : Option String) (rs : List SrcResp)
    (res : RunResult),
    dayLoop ml md holdoff fuel dc startSec st rs = .ok res →
    ∀ d ∈ res.days, pyStrLt (tsStr d.startSec).data holdoff.data = true := by
  intro fuel
  induction fuel with
  | zero =>
    intro ml md holdoff dc startSec st rs res h d hd
    exact absurd h (by simp [dayLoop])
  | succ f ih =>
    intro ml md holdoff dc startSec st rs res h d hd
    cases hb : pyStrLt (tsStr startSec).data holdoff.data with
    | false =>
      simp only [dayLoop, hb] at h
      simp at h
      rw [← h] at hd
      simp at hd
    | true =>
      simp only [dayLoop, hb, if_true] at h
      by_cases hcap : (md ≠ 0 ∧ dc + 1 > md)
      · rw [if_pos hcap] at h
        simp at h
        rw [← h] at hd
        simp at hd
      · rw [if_neg hcap] at h
        split at h
        · simp at h
        · rename_i day rest' heq
          split at h
          · simp at h
          · rename_i res' heq2
            simp at h
            rw [← h] at hd
            simp at hd
            rcases hd with hd | hd
            · rw [hd, processDay_startSec ml startSec rs day rest' heq]
              exact hb
            · exact ih ml md holdoff (dc + 1) (nextMidnight startSec)
                (some day.tsEnd) rest' res' heq2 d hd

theorem tsStr_data (n : Nat) :
    (tsStr n).data = natDigits n ++ List.replicate 9 '0' := rfl

/-- On nanosecond timestamp strings whose second counts have equally many
decimal digits, the code's string comparison agrees with numeric order. -/
theorem pyStrLt_tsStr (a b : Nat)
    (h : (natDigits a).length = (natDigits b).length) :
    (pyStrLt (tsStr a).data (tsStr b).data = true ↔ a < b) := by
  rw [tsStr_data, tsStr_data, pyStrLt_append_right _ _ _ h]
  exact pyStrLt_natDigits a b h

/-- **C3 counterexample.** The day-loop guard compares the nanosecond
timestamps as Python strings, not as numbers.  With today's midnight at
`86400` and no holdoff days the boundary is `86400e9`; resuming from a
cursor at `100000e9` — at/after the boundary — the day is nevertheless
fetched (its query call is made and the day is processed), because
`"100000000000000" < "86400000000000"` lexicographically, refuting the
claim for this cursor state. -/
theorem C3_counterexample :
    runExport 100 1 0 86400 (some "100000000000000") 0 [SrcResp.success []] 5 =
      .ok { days := [
              { startSec := 100000,
                tsStart := "100000000000000",
                tsEnd := "172800000000000",
                calls := [("100000000000000", "172800000000000")],
                exported := [], batchesSent := 0 }],
            state := some "172800000000000", rest := [] } ∧
    86400 - 0 * 86400 ≤ 100000 :=
  ⟨by rfl, by decide⟩

/-- **C3 (amended).** Every day the engine fetches passed the guard
`ts_start < ts_holdoff` taken as Python *string* comparison; whenever the
window-start and holdoff-boundary second counts have equally many decimal
digits (in particular for all realistic timestamps, which share 10
digits), this implies the window start is numerically strictly before the
holdoff boundary, so such a day at or after the boundary is never fetched
or exported.  (With unequal digit counts the guard can disagree with
numeric order — see the counterexample.) -/
theorem C3_holdoff_guard (ml md hd tm : Nat) (st : Option String)
    (cfgStart : Nat) (rs : List SrcResp) (fuel : Nat) (res : RunResult)
    (h : runExport ml md hd tm st cfgStart rs fuel = .ok res) :
    ∀ d ∈ res.days,
      pyStrLt (tsStr d.startSec).data (holdoffTs tm hd).data = true ∧
      ((natDigits d.startSec).length = (natDigits (tm - hd * 86400)).length →
        d.startSec < tm - hd * 86400) := by
  intro d hd'
  have hg : pyStrLt (tsStr d.startSec).data (holdoffTs tm hd).data = true := by
    unfold runExport at h
    cases hrs : resolveStart st cfgStart with
    | error e => rw [hrs] at h; simp at h
    | ok s0 =>
      rw [hrs] at h
      exact dayLoop_days_guard fuel ml md _ 0 s0 st rs res h d hd'
  exact ⟨hg, fun hlen => (pyStrLt_tsStr d.startSec (tm - hd * 86400) hlen).mp hg⟩

/-- **C3 witness.** The amended theorem instantiated on a run whose one
processed day has a six-digit second count, like the boundary. -/
theorem C3_holdoff_guard_witness :
    pyStrLt (tsStr 100000).data (holdoffTs 172800 0).data = true ∧
    ((natDigits 100000).length = (natDigits (172800 - 0 * 86400)).length →
      100000 < 172800 - 0 * 86400) := by
  have h := C3_holdoff_guard 100 1 0 172800 (some "100000000000000") 0
    [SrcResp.success []] 5
    { days := [
        { startSec := 100000,
          tsStart := "100000000000000",
          tsEnd := "172800000000000",
          calls := [("100000000000000", "172800000000000")],
          exported := [], batchesSent := 0 }],
      state := some "172800000000000", rest := [] } (by rfl)
  exact h
    { startSec := 100000,
      tsStart := "100000000000000",
      tsEnd := "172800000000000",
      calls := [("100000000000000", "172800000000000")],
      exported := [], batchesSent := 0 } (by simp)

/-- **C8 counterexample.** The key substitution maps every single
non-lowercase character to its own underscore and does not collapse
runs: the query `"a  b"` (one run of two spaces) yields `"a__b"` with two
adjacent underscores, not the `"a_b"` the claim's run-collapsing
requires. -/
theorem C8_counterexample :
    exportKey "a  b" = "a__b" ∧ exportKey "a  b" ≠ "a_b" := by
  refine ⟨by rfl, by decide⟩

/-- **C8 (amended).** Export-key derivation is a pure per-character
function of the query string: it distributes over concatenation (hence
the same query always yields the same key); each `{`, `}` and `"` is
removed; each lowercase letter is kept; **each** other character becomes
one underscore (so a run of k such characters yields k underscores, not
one); and the key consists only of lowercase letters and underscores. -/
theorem C8_per_character_key :
    (∀ q₁ q₂ : List Char, exportKey ⟨q₁ ++ q₂⟩ = exportKey ⟨q₁⟩ ++ exportKey ⟨q₂⟩) ∧
    (∀ c : Char, exportKey ⟨[c]⟩ =
      if c = '{' ∨ c = '}' ∨ c = '"' then ""
      else if 'a' ≤ c ∧ c ≤ 'z' then ⟨[c]⟩ else "_") ∧
    (∀ q : List Char, ∀ c ∈ (exportKey ⟨q⟩).data, ('a' ≤ c ∧ c ≤ 'z') ∨ c = '_') := by
  refine ⟨?_, ?_, ?_⟩
  · intro q₁ q₂
    show (⟨(q₁ ++ q₂).flatMap keyChar⟩ : String) = ⟨q₁.flatMap keyChar ++ q₂.flatMap keyChar⟩
    rw [List.flatMap_append]
  · intro c
    show (⟨keyChar c ++ []⟩ : String) = _
    by_cases h1 : c = '{' ∨ c = '}' ∨ c = '"'
    · simp [keyChar, h1]
    · by_cases h2 : 'a' ≤ c ∧ c ≤ 'z' <;> simp [keyChar, h1, h2]
  · intro q
    induction q with
    | nil => intro c hc; simp [exportKey] at hc
    | cons a as ih =>
      intro c hc
      show ('a' ≤ c ∧ c ≤ 'z') ∨ c = '_'
      have : c ∈ keyChar a ++ as.flatMap keyChar := hc
      rcases List.mem_append.mp this with h | h
      · by_cases h1 : a = '{' ∨ a = '}' ∨ a = '"'
        · simp [keyChar, h1] at h
        · by_cases h2 : 'a' ≤ a ∧ a ≤ 'z'
          · simp [keyChar, h1, h2] at h
            exact Or.inl (h ▸ h2)
          · simp [keyChar, h1, h2] at h
            exact Or.inr h
      · exact ih c h

/-- **C8 witness.** The amended theorem instantiated concretely: the key
of a concatenation, and an underscore in a derived key. -/
theorem C8_per_character_key_witness :
    exportKey ⟨"a ".data ++ " b".data⟩ = exportKey "a " ++ exportKey " b" ∧
    (('a' ≤ '_' ∧ '_' ≤ 'z') ∨ '_' = '_') :=
  ⟨C8_per_character_key.1 "a ".data " b".data,
   C8_per_character_key.2.2 "9".data '_' (by decide)⟩

/-- Replace each ASCII whitespace character by one tab (the per-character
characterisation of the ELF message rewrite outside quoted substrings). -/
def tabEachSpace (cs : List Char) : List Char :=
  cs.map (fun c => if isPySpace c then '\t' else c)

theorem findClose_noquote :
    ∀ (inner t : List Char), (∀ c ∈ inner, c ≠ '"') →
      findClose (inner ++ '"' :: t) = some (inner, t) := by
  intro inner
  induction inner with
  | nil => intro t _; simp [findClose]
  | cons a as ih =>
    intro t hq
    have ha : a ≠ '"' := hq a (by simp)
    simp only [List.cons_append, findClose, ha, if_false, if_neg ha,
      List.append_eq]
    rw [ih t (fun c hc => hq c (by simp [hc]))]
    rfl

theorem elfSubAux_noquote :
    ∀ (cs : List Char) (fuel : Nat), cs.length ≤ fuel →
      (∀ c ∈ cs, c ≠ '"') → elfSubAux fuel cs = tabEachSpace cs := by
  intro cs
  induction cs with
  | nil => intro fuel _ _; cases fuel <;> rfl
  | cons a as ih =>
    intro fuel hlen hq
    match fuel with
    | 0 => simp at hlen
    | f + 1 =>
      have ha : a ≠ '"' := hq a (by simp)
      have has : ∀ c ∈ as, c ≠ '"' := fun c hc => hq c (by simp [hc])
      have hlen' : as.length ≤ f := by simp at hlen; omega
      by_cases hsp : isPySpace a = true
      · simp only [elfSubAux, ha, if_neg ha, hsp, if_true, ih f hlen' has]
        simp [tabEachSpace, hsp]
      · simp only [elfSubAux, ha, if_neg ha, hsp, ih f hlen' has]
        simp at hsp
        simp [tabEachSpace, hsp]

theorem elfSubAux_quoted :
    ∀ (s : List Char) (fuel : Nat) (inner t : List Char),
      (s ++ '"' :: inner ++ '"' :: t).length ≤ fuel →
      (∀ c ∈ s, c ≠ '"') → (∀ c ∈ inner, c ≠ '"') → inner ≠ [] →
      (∀ c ∈ t, c ≠ '"') →
      elfSubAux fuel (s ++ '"' :: inner ++ '"' :: t) =
        tabEachSpace s ++ '"' :: inner ++ '"' :: tabEachSpace t := by
  intro s
  induction s with
  | nil =>
    intro fuel inner t hlen _ hinner hne ht
    match fuel with
    | 0 => simp at hlen
    | f + 1 =>
      have hlf : t.length ≤ f := by simp at hlen; omega
      simp only [List.nil_append, elfSubAux, if_pos rfl, if_true,
        List.append_eq]
      rw [findClose_noquote inner t hinner]
      simp only [if_neg hne]
      rw [elfSubAux_noquote t f hlf ht]
      simp [tabEachSpace]
  | cons a as ih =>
    intro fuel inner t hlen hs hinner hne ht
    match fuel with
    | 0 => simp at hlen
    | f + 1 =>
      have ha : a ≠ '"' := hs a (by simp)
      have has : ∀ c ∈ as, c ≠ '"' := fun c hc => hs c (by simp [hc])
      have hlen' : (as ++ '"' :: inner ++ '"' :: t).length ≤ f := by
        simp at hlen ⊢; omega
      have hih := ih f inner t hlen' has hinner hne ht
      by_cases hsp : isPySpace a = true
      · simp only [List.cons_append, elfSubAux, ha, if_neg ha, hsp, if_true]
        simp only [List.append_eq, List.cons_append] at hih ⊢
        rw [hih]
        simp [tabEachSpace, hsp]
      · simp only [List.cons_append, elfSubAux, ha, if_neg ha, hsp]
        simp only [List.append_eq, List.cons_append] at hih ⊢
        rw [hih]
        simp at hsp
        simp [tabEachSpace, hsp]

/-- **C9 counterexample.** Each whitespace character is replaced by its
own tab: the message `c  d` (two consecutive spaces outside quotes)
becomes `c<TAB><TAB>d`, not the `c<TAB>d` required by the claim's
"every maximal run … replaced by exactly one tab". -/
theorem C9_counterexample :
    formatLogsToElf [⟨[("86400000000000", "c  d")]⟩] =
      .ok "1970-01-02\t00:00:00\tc\t\td" ∧
    elfMessage "c  d" = "c\t\td" ∧ elfMessage "c  d" ≠ "c\td" := by
  refine ⟨by rfl, by rfl, by decide⟩

/-- **C9 (amended).** Each ELF line is `date<TAB>time<TAB>message`
(timestamp truncated to seconds), where **each single** whitespace
character of the message outside double-quoted substrings becomes one
tab (a run of k whitespace characters becomes k tabs), and a
double-quoted substring — a quote, at least one non-quote character,
then a quote — is preserved verbatim, including its whitespace. -/
theorem C9_elf_each_space_to_tab :
    (∀ msg : List Char, (∀ c ∈ msg, c ≠ '"') →
      elfMessage ⟨msg⟩ = ⟨tabEachSpace msg⟩) ∧
    (∀ s inner t : List Char, (∀ c ∈ s, c ≠ '"') → (∀ c ∈ inner, c ≠ '"') →
      inner ≠ [] → (∀ c ∈ t, c ≠ '"') →
      elfMessage ⟨s ++ '"' :: inner ++ '"' :: t⟩ =
        ⟨tabEachSpace s ++ '"' :: inner ++ '"' :: tabEachSpace t⟩) ∧
    (∀ ts msg : String, ∀ sec : Nat, tsSecOf ts = some sec →
      formatLine (ts, msg) = .ok (strftimeElf sec ++ "\t" ++ elfMessage msg)) := by
  refine ⟨?_, ?_, ?_⟩
  · intro msg hq
    show (⟨elfSubAux msg.length msg⟩ : String) = ⟨tabEachSpace msg⟩
    rw [elfSubAux_noquote msg msg.length (le_refl _) hq]
  · intro s inner t hs hinner hne ht
    show (⟨elfSubAux (s ++ '"' :: inner ++ '"' :: t).length
        (s ++ '"' :: inner ++ '"' :: t)⟩ : String) = _
    rw [elfSubAux_quoted s _ inner t (le_refl _) hs hinner hne ht]
  · intro ts msg sec hsec
    simp [formatLine, hsec]

/-- **C9 witness.** The amended theorem instantiated on the spec's own
example `key="a b" c d`, recovering `key="a b"<TAB>c<TAB>d`. -/
theorem C9_elf_witness :
    elfMessage "key=\"a b\" c d" = "key=\"a b\"\tc\td" := by
  have h := C9_elf_each_space_to_tab.2.1 "key=".data "a b".data " c d".data
    (by decide) (by decide) (by decide) (by decide)
  have e1 : ("key=\"a b\" c d" : String) =
      ⟨"key=".data ++ '"' :: "a b".data ++ '"' :: " c d".data⟩ := by decide
  have e2 : (⟨tabEachSpace "key=".data ++ '"' :: "a b".data ++ '"' ::
      tabEachSpace " c d".data⟩ : String) = "key=\"a b\"\tc\td" := by decide
  rw [e1, h, e2]

/-- Expected exports of a pagination run: single-group batches numbered
consecutively from `n`. -/
def numberFrom (tsDay : String) : Nat → List LogGroup → List Batch
  | _, [] => []
  | n, g :: gs => ⟨n, [g], tsDay⟩ :: numberFrom tsDay (n + 1) gs

/-- Expected re-query calls of a pagination run: the timestamp of the
last line of each full batch, against the original window end. -/
def queryCalls (tsEnd : String) (gs : List LogGroup) : List (String × String) :=
  gs.map (fun g => ((g.values.getLastD ("", "")).1, tsEnd))

theorem paginate_scenario : ∀ (fulls : List LogGroup) (cur : LogGroup)
    (lastGroups : List LogGroup) (maxLines : Nat) (tsDay tsEnd : String)
    (batchNr : Nat) (rs : List SrcResp),
    0 < maxLines → cur.values.length = maxLines →
    (∀ g ∈ fulls, g.values.length = maxLines) →
    batchSizeOf lastGroups < maxLines →
    paginate maxLines tsDay tsEnd
        (fulls.map (fun g => SrcResp.success [g]) ++ SrcResp.success lastGroups :: rs)
        [cur] maxLines batchNr =
      .ok { exported := numberFrom tsDay batchNr (cur :: fulls) ++
              (match lastGroups with
               | [] => []
               | _ :: _ => [⟨batchNr + fulls.length + 1, lastGroups, tsDay⟩]),
            calls := queryCalls tsEnd (cur :: fulls),
            finalBatchNr := batchNr + fulls.length + 1,
            rest := rs } := by
  intro fulls
  induction fulls with
  | nil =>
    intro cur lastGroups maxLines tsDay tsEnd batchNr rs hml hcur _ hlast
    have hne : cur.values ≠ [] := by
      intro h; rw [h] at hcur; simp at hcur; omega
    obtain ⟨lastLine, hll⟩ : ∃ x, cur.values.getLast? = some x := by
      cases hl : cur.values.getLast? with
      | none => exact absurd (List.getLast?_eq_none_iff.mp hl) hne
      | some x => exact ⟨x, rfl⟩
    simp only [List.map_nil, List.nil_append, paginate, if_pos rfl, hll]
    have hsz : ¬(batchSizeOf lastGroups = maxLines) := by omega
    simp only [groupsOf]
    rw [paginate.eq_def]
    simp only [if_neg hsz]
    cases lastGroups with
    | nil =>
      simp [numberFrom, queryCalls, List.getLastD_eq_getLast?, hll, Except.map]
    | cons g gs =>
      simp [numberFrom, queryCalls, List.getLastD_eq_getLast?, hll, Except.map]
  | cons f fs ih =>
    intro cur lastGroups maxLines tsDay tsEnd batchNr rs hml hcur hfulls hlast
    have hne : cur.values ≠ [] := by
      intro h; rw [h] at hcur; simp at hcur; omega
    obtain ⟨lastLine, hll⟩ : ∃ x, cur.values.getLast? = some x := by
      cases hl : cur.values.getLast? with
      | none => exact absurd (List.getLast?_eq_none_iff.mp hl) hne
      | some x => exact ⟨x, rfl⟩
    have hf : f.values.length = maxLines := hfulls f (by simp)
    simp only [List.map_cons, List.cons_append, paginate, if_pos rfl, hll]
    simp only [groupsOf, batchSizeOf, hf]
    rw [ih f lastGroups maxLines tsDay tsEnd (batchNr + 1) rs hml hf
      (fun g hg => hfulls g (by simp [hg])) hlast]
    simp only [numberFrom, queryCalls, List.map_cons, Except.map, if_true,
      List.length_cons]
    have e1 : batchNr + 1 + fs.length + 1 = batchNr + (fs.length + 1) + 1 := by
      omega
    rw [e1]
    simp [numberFrom, queryCalls, List.cons_append, List.getLastD_eq_getLast?,
      hll]

/-- **C2 counterexample.** When the final (here: second) query of a day
returns zero lines (`success []`, i.e. `k = 0`), the engine still makes
N = 2 query calls but exports only N − 1 = 1 batch — the empty final
batch is not exported — refuting the claim's "exports exactly N batches
… including k = 0". -/
theorem C2_counterexample :
    (processDay 2 0 [SrcResp.success [⟨[("10", "a"), ("20", "b")]⟩],
        SrcResp.success []]).map
      (fun p => (p.1.calls.length, p.1.exported.length, p.1.exported.map
        (fun b => b.iteration))) = .ok (2, 1, [1]) := by
  rfl

/-- **C2 (amended).** If the source returns exactly `max_lines_per_query`
lines on each of the first N−1 query calls of a day and fewer on the Nth,
the engine performs exactly N query calls, each re-query starting from
the timestamp of the last line of the previous batch through the original
window end.  The first N−1 (full) batches are exported with iteration
numbers 1 through N−1; the Nth response is exported as the final batch
with iteration number N exactly when it contains at least one result
group — in particular, a `k = 0` day-tail (empty result list) yields N−1
exported batches, not N.  (The `batches-sent` metric is nevertheless
incremented by N in both cases.) -/
theorem C2_pagination_batches (maxLines startSec : Nat) (cur : LogGroup)
    (fulls lastGroups : List LogGroup) (rs : List SrcResp)
    (hml : 0 < maxLines) (hcur : cur.values.length = maxLines)
    (hfulls : ∀ g ∈ fulls, g.values.length = maxLines)
    (hlast : batchSizeOf lastGroups < maxLines) :
    processDay maxLines startSec
        (SrcResp.success [cur] ::
          (fulls.map (fun g => SrcResp.success [g]) ++
            SrcResp.success lastGroups :: rs)) =
      .ok ({ startSec := startSec, tsStart := tsStr startSec,
             tsEnd := tsStr (nextMidnight startSec),
             calls := (tsStr startSec, tsStr (nextMidnight startSec)) ::
               queryCalls (tsStr (nextMidnight startSec)) (cur :: fulls),
             exported := numberFrom (tsStr startSec) 1 (cur :: fulls) ++
               (match lastGroups with
                | [] => []
                | _ :: _ => [⟨fulls.length + 2, lastGroups, tsStr startSec⟩]),
             batchesSent := fulls.length + 2 }, rs) := by
  simp only [processDay, groupsOf]
  have hsz : batchSizeOf [cur] = maxLines := by
    simp [batchSizeOf, hcur]
  rw [hsz]
  rw [paginate_scenario fulls cur lastGroups maxLines (tsStr startSec)
    (tsStr (nextMidnight startSec)) 1 rs hml hcur hfulls hlast]
  have e1 : 1 + fulls.length + 1 = fulls.length + 2 := by omega
  simp [e1]
  cases lastGroups <;> rfl

/-- **C2 witness.** The amended theorem instantiated with
`max_lines = 2`, one full batch of two lines, one further full batch,
and a final one-line batch (N = 3). -/
theorem C2_pagination_batches_witness :
    processDay 2 0
        (SrcResp.success [⟨[("10", "a"), ("20", "b")]⟩] ::
          ([(⟨[("30", "c"), ("40", "d")]⟩ : LogGroup)].map
              (fun g => SrcResp.success [g]) ++
            SrcResp.success [⟨[("50", "e")]⟩] :: [])) =
      .ok ({ startSec := 0, tsStart := tsStr 0,
             tsEnd := tsStr (nextMidnight 0),
             calls := (tsStr 0, tsStr (nextMidnight 0)) ::
               queryCalls (tsStr (nextMidnight 0))
                 [⟨[("10", "a"), ("20", "b")]⟩, ⟨[("30", "c"), ("40", "d")]⟩],
             exported := numberFrom (tsStr 0) 1
                 [⟨[("10", "a"), ("20", "b")]⟩, ⟨[("30", "c"), ("40", "d")]⟩] ++
               [⟨3, [⟨[("50", "e")]⟩], tsStr 0⟩],
             batchesSent := 3 }, []) := by
  have h := C2_pagination_batches 2 0 ⟨[("10", "a"), ("20", "b")]⟩
    [⟨[("30", "c"), ("40", "d")]⟩] [⟨[("50", "e")]⟩] []
    (by decide) (by decide) (by decide) (by decide)
  simpa using h

/-! ### Round-trip analysis of the JSON formatter -/

/-- A character that passes through `repr` and the quote replacement
completely unescaped: printable ASCII that is neither a single quote, a
double quote nor a backslash.  (Used for the literal `values` object key;
message round-tripping is covered by the larger class `RTChar`.) -/
def SafeChar (c : Char) : Prop :=
  32 ≤ c.toNat ∧ c.toNat ≤ 126 ∧ c ≠ '\'' ∧ c ≠ '"' ∧ c ≠ '\\'

instance (c : Char) : Decidable (SafeChar c) := by
  unfold SafeChar; infer_instance

/-- All characters of the string are safe. -/
def SafeStr (s : String) : Prop := ∀ c ∈ s.data, SafeChar c

instance (s : String) : Decidable (SafeStr s) := by
  unfold SafeStr; infer_instance

/-- A character the formatter round-trips faithfully: printable ASCII
other than the two quote characters (backslash included — `repr` escapes
it as `\\`, which is valid JSON), together with tab, newline and carriage
return (escaped by `repr` as `\t`, `\n`, `\r`, likewise valid JSON). -/
def RTChar (c : Char) : Prop :=
  (32 ≤ c.toNat ∧ c.toNat ≤ 126 ∧ c ≠ '\'' ∧ c ≠ '"') ∨
    c = '\t' ∨ c = '\n' ∨ c = '\r'

instance (c : Char) : Decidable (RTChar c) := by
  unfold RTChar; infer_instance

/-- All characters of the string round-trip. -/
def RTStr (s : String) : Prop := ∀ c ∈ s.data, RTChar c

instance (s : String) : Decidable (RTStr s) := by
  unfold RTStr; infer_instance

/-- The five mutually exclusive shapes of a round-tripping character,
matching the branches of `pyReprEscape`. -/
theorem rtChar_cases {c : Char} (h : RTChar c) :
    c = '\\' ∨ c = '\t' ∨ c = '\n' ∨ c = '\r' ∨
      (32 ≤ c.toNat ∧ c.toNat ≤ 126 ∧ c ≠ '\'' ∧ c ≠ '"' ∧ c ≠ '\\') := by
  by_cases hb : c = '\\'
  · exact Or.inl hb
  · rcases h with ⟨h1, h2, h3, h4⟩ | h | h | h
    · exact Or.inr (Or.inr (Or.inr (Or.inr ⟨h1, h2, h3, h4, hb⟩)))
    · exact Or.inr (Or.inl h)
    · exact Or.inr (Or.inr (Or.inl h))
    · exact Or.inr (Or.inr (Or.inr (Or.inl h)))

theorem rtChar_ne_quote {c : Char} (h : RTChar c) : c ≠ '\'' := by
  rcases h with ⟨_, _, h3, _⟩ | h | h | h
  · exact h3
  all_goals (subst h; decide)

theorem contains_eq_false_of_not_mem {l : List Char} {a : Char}
    (h : ∀ c ∈ l, c ≠ a) : l.contains a = false := by
  induction l with
  | nil => rfl
  | cons x xs ih =>
    have hx : x ≠ a := h x (by simp)
    simp only [List.contains_cons]
    rw [ih (fun c hc => h c (by simp [hc]))]
    simp [hx, Ne.symm hx]

theorem pyReprEscape_safe : ∀ cs : List Char, (∀ c ∈ cs, SafeChar c) →
    pyReprEscape '\'' cs = cs := by
  intro cs h
  induction cs with
  | nil => rfl
  | cons c cs ih =>
    obtain ⟨h32, h126, hq, hd, hb⟩ := h c (by simp)
    have hn : c ≠ '\n' := by intro he; rw [he] at h32; simp at h32
    have hr : c ≠ '\r' := by intro he; rw [he] at h32; simp at h32
    have ht : c ≠ '\t' := by intro he; rw [he] at h32; simp at h32
    have hc : ¬(c.toNat < 32 ∨ c.toNat = 127) := by omega
    rw [show pyReprEscape '\'' (c :: cs) =
      (if c = '\\' then '\\' :: '\\' :: pyReprEscape '\'' cs
       else if c = '\'' then '\\' :: '\'' :: pyReprEscape '\'' cs
       else if c = '\n' then '\\' :: 'n' :: pyReprEscape '\'' cs
       else if c = '\r' then '\\' :: 'r' :: pyReprEscape '\'' cs
       else if c = '\t' then '\\' :: 't' :: pyReprEscape '\'' cs
       else if c.toNat < 32 ∨ c.toNat = 127 then
         '\\' :: 'x' :: hexDigit (c.toNat / 16) :: hexDigit (c.toNat % 16) ::
           pyReprEscape '\'' cs
       else c :: pyReprEscape '\'' cs) from rfl]
    rw [ih (fun c hc => h c (by simp [hc]))]
    simp [hb, hq, hn, hr, ht, hc]

theorem pyReprStr_safe (s : String) (h : SafeStr s) :
    pyReprStr s = '\'' :: s.data ++ ['\''] := by
  have hq : s.data.contains '\'' = false :=
    contains_eq_false_of_not_mem (fun c hc => (h c hc).2.2.1)
  simp only [pyReprStr, hq]
  simp only [Bool.false_eq_true, false_and, if_false]
  rw [pyReprEscape_safe s.data h]

/-- One step of `pyReprEscape`, spelled out. -/
theorem pyReprEscape_cons (q c : Char) (cs : List Char) :
    pyReprEscape q (c :: cs) =
      (if c = '\\' then '\\' :: '\\' :: pyReprEscape q cs
       else if c = q then '\\' :: q :: pyReprEscape q cs
       else if c = '\n' then '\\' :: 'n' :: pyReprEscape q cs
       else if c = '\r' then '\\' :: 'r' :: pyReprEscape q cs
       else if c = '\t' then '\\' :: 't' :: pyReprEscape q cs
       else if c.toNat < 32 ∨ c.toNat = 127 then
         '\\' :: 'x' :: hexDigit (c.toNat / 16) :: hexDigit (c.toNat % 16) ::
           pyReprEscape q cs
       else c :: pyReprEscape q cs) := rfl

/-- The `repr` escaping of round-tripping text emits no single quote, so
the global `'` → `"` replacement leaves it intact. -/
theorem pyReprEscape_ne_quote : ∀ cs : List Char, (∀ c ∈ cs, RTChar c) →
    ∀ x ∈ pyReprEscape '\'' cs, x ≠ '\'' := by
  intro cs h
  induction cs with
  | nil => intro x hx; simp [pyReprEscape] at hx
  | cons c cs ih =>
    have hih := ih (fun y hy => h y (by simp [hy]))
    rcases rtChar_cases (h c (by simp)) with hb | ht | hn | hr |
      ⟨h32, h126, hq, hd, hnb⟩
    · subst hb
      rw [show pyReprEscape '\'' ('\\' :: cs) =
        '\\' :: '\\' :: pyReprEscape '\'' cs from rfl]
      intro x hx
      simp only [List.mem_cons] at hx
      rcases hx with rfl | rfl | hx
      · decide
      · decide
      · exact hih x hx
    · subst ht
      rw [show pyReprEscape '\'' ('\t' :: cs) =
        '\\' :: 't' :: pyReprEscape '\'' cs from rfl]
      intro x hx
      simp only [List.mem_cons] at hx
      rcases hx with rfl | rfl | hx
      · decide
      · decide
      · exact hih x hx
    · subst hn
      rw [show pyReprEscape '\'' ('\n' :: cs) =
        '\\' :: 'n' :: pyReprEscape '\'' cs from rfl]
      intro x hx
      simp only [List.mem_cons] at hx
      rcases hx with rfl | rfl | hx
      · decide
      · decide
      · exact hih x hx
    · subst hr
      rw [show pyReprEscape '\'' ('\r' :: cs) =
        '\\' :: 'r' :: pyReprEscape '\'' cs from rfl]
      intro x hx
      simp only [List.mem_cons] at hx
      rcases hx with rfl | rfl | hx
      · decide
      · decide
      · exact hih x hx
    · have hn' : c ≠ '\n' := by intro he; rw [he] at h32; simp at h32
      have hr' : c ≠ '\r' := by intro he; rw [he] at h32; simp at h32
      have ht' : c ≠ '\t' := by intro he; rw [he] at h32; simp at h32
      have hc : ¬(c.toNat < 32 ∨ c.toNat = 127) := by omega
      rw [pyReprEscape_cons]
      simp only [if_neg hnb, if_neg hq, if_neg hn', if_neg hr', if_neg ht',
        if_neg hc]
      intro x hx
      simp only [List.mem_cons] at hx
      rcases hx with rfl | hx
      · exact hq
      · exact hih x hx

/-- `repr` of a round-tripping string is single-quoted with only
backslash, tab, newline and carriage return escaped. -/
theorem pyReprStr_rt (s : String) (h : RTStr s) :
    pyReprStr s = '\'' :: pyReprEscape '\'' s.data ++ ['\''] := by
  have hq : s.data.contains '\'' = false :=
    contains_eq_false_of_not_mem (fun c hc => rtChar_ne_quote (h c hc))
  simp only [pyReprStr, hq]
  simp only [Bool.false_eq_true, false_and, if_false]

/-- The character map of `.replace("'", "\"")` fixes quote-free text. -/
theorem map_replace_quote_id (cs : List Char) (h : ∀ c ∈ cs, c ≠ '\'') :
    cs.map (fun c => if c = '\'' then '"' else c) = cs := by
  induction cs with
  | nil => rfl
  | cons c cs ih =>
    have hc : c ≠ '\'' := h c (by simp)
    simp only [List.map_cons, if_neg hc]
    rw [ih (fun c hc => h c (by simp [hc]))]

theorem map_replace_quote_safe (cs : List Char) (h : ∀ c ∈ cs, SafeChar c) :
    (('\'' :: cs ++ ['\'']).map (fun c => if c = '\'' then '"' else c)) =
      '"' :: cs ++ ['"'] := by
  simp only [List.map_cons, List.map_append, List.map_cons, List.map_nil,
    if_pos rfl]
  rw [map_replace_quote_id cs (fun c hc => (h c hc).2.2.1)]
  simp

/-- The quote replacement fixes the `repr`-escaped body of a
round-tripping string. -/
theorem map_replace_escape (cs : List Char) (h : ∀ c ∈ cs, RTChar c) :
    (pyReprEscape '\'' cs).map (fun c => if c = '\'' then '"' else c) =
      pyReprEscape '\'' cs :=
  map_replace_quote_id _ (pyReprEscape_ne_quote cs h)

/-- The JSON value a faithful structured formatter would produce for a
batch: `{"values": [[ts, msg], …]}`. -/
def pairJson (p : LogLine) : Json := .arr [.str p.1, .str p.2]

def jsonOfValues (vs : List LogLine) : Json :=
  .obj [("values", .arr (vs.map pairJson))]

/-- The double-quoted rendering of one pair, as produced by the quote
replacement on round-tripping strings: `["ts", "msg"]` with the
`repr`-escaped string bodies. -/
def renderPair (p : LogLine) : List Char :=
  '[' :: '"' :: pyReprEscape '\'' p.1.data ++ '"' :: ',' :: ' ' :: '"' ::
    pyReprEscape '\'' p.2.data ++ ['"', ']']

def commaTail : List LogLine → List Char
  | [] => []
  | p :: ps => ',' :: ' ' :: (renderPair p ++ commaTail ps)

def renderInner : List LogLine → List Char
  | [] => []
  | p :: ps => renderPair p ++ commaTail ps

theorem renderPair_map_repl (p : LogLine)
    (h1 : RTStr p.1) (h2 : RTStr p.2) :
    (pyReprPair p).map (fun c => if c = '\'' then '"' else c) = renderPair p := by
  simp only [pyReprPair, renderPair, pyReprStr_rt p.1 h1,
    pyReprStr_rt p.2 h2]
  simp only [List.map_cons, List.map_append, List.map_nil]
  rw [map_replace_escape p.1.data h1, map_replace_escape p.2.data h2]
  simp

theorem joinComma_map_repl : ∀ vs : List LogLine,
    (∀ p ∈ vs, RTStr p.1 ∧ RTStr p.2) →
    (joinComma (vs.map pyReprPair)).map (fun c => if c = '\'' then '"' else c) =
      renderInner vs := by
  intro vs
  induction vs with
  | nil => intro _; rfl
  | cons p ps ih =>
    intro h
    obtain ⟨h1, h2⟩ := h p (by simp)
    cases ps with
    | nil =>
      simp only [List.map_cons, List.map_nil, joinComma, renderInner]
      rw [renderPair_map_repl p h1 h2]
      simp [commaTail]
    | cons q rest =>
      have hq := ih (fun r hr => h r (by simp at hr ⊢; tauto))
      simp only [List.map_cons, joinComma, renderInner] at hq ⊢
      simp only [List.map_append, List.map_cons]
      rw [renderPair_map_repl p h1 h2]
      simp [hq, commaTail]

theorem replaced_values (vs : List LogLine)
    (h : ∀ p ∈ vs, RTStr p.1 ∧ RTStr p.2) :
    (pyReprValues vs).map (fun c => if c = '\'' then '"' else c) =
      '[' :: renderInner vs ++ [']'] := by
  simp only [pyReprValues, List.map_cons, List.map_append, List.map_nil]
  rw [joinComma_map_repl vs h]
  simp

theorem skipWs_space (cs : List Char) : skipWs (' ' :: cs) = skipWs cs := by
  simp [skipWs]

theorem skipWs_quote (cs : List Char) : skipWs ('"' :: cs) = '"' :: cs := by
  simp [skipWs]

theorem parseStrBody_safe : ∀ (cs rest : List Char),
    (∀ c ∈ cs, SafeChar c) →
    parseStrBody (cs ++ '"' :: rest) = some (cs, rest) := by
  intro cs
  induction cs with
  | nil => intro rest _; rfl
  | cons c cs ih =>
    intro rest h
    obtain ⟨h32, h126, hq, hd, hb⟩ := h c (by simp)
    have hlt : ¬(c.toNat < 32) := by omega
    simp only [List.cons_append, parseStrBody, hd, if_neg hd, hb, if_neg hb,
      hlt, if_neg hlt, if_false, List.append_eq]
    rw [ih rest (fun x hx => h x (by simp [hx]))]
    rfl

theorem parseVal_str (f : Nat) (cs rest : List Char)
    (h : ∀ c ∈ cs, SafeChar c) :
    parseVal (f + 1) ('"' :: cs ++ '"' :: rest) = some (.str ⟨cs⟩, rest) := by
  have e2 : skipWs ('"' :: cs ++ '"' :: rest) = '"' :: (cs ++ '"' :: rest) :=
    skipWs_quote _
  simp only [parseVal, e2, if_pos rfl]
  rw [parseStrBody_safe cs rest h]
  rfl

theorem parseStrBody_backslash (cs : List Char) :
    parseStrBody ('\\' :: cs) = parseStrEsc cs := rfl

theorem parseStrEsc_backslash (cs : List Char) :
    parseStrEsc ('\\' :: cs) =
      (parseStrBody cs).map (fun p => ('\\' :: p.1, p.2)) := rfl

theorem parseStrEsc_t (cs : List Char) :
    parseStrEsc ('t' :: cs) =
      (parseStrBody cs).map (fun p => ('\t' :: p.1, p.2)) := rfl

theorem parseStrEsc_n (cs : List Char) :
    parseStrEsc ('n' :: cs) =
      (parseStrBody cs).map (fun p => ('\n' :: p.1, p.2)) := rfl

theorem parseStrEsc_r (cs : List Char) :
    parseStrEsc ('r' :: cs) =
      (parseStrBody cs).map (fun p => ('\r' :: p.1, p.2)) := rfl

/-- The JSON string parser decodes the `repr`-escaped body of a
round-tripping string back to the original characters. -/
theorem parseStrBody_esc : ∀ (cs rest : List Char),
    (∀ c ∈ cs, RTChar c) →
    parseStrBody (pyReprEscape '\'' cs ++ '"' :: rest) = some (cs, rest) := by
  intro cs
  induction cs with
  | nil => intro rest _; rfl
  | cons c cs ih =>
    intro rest h
    have hih := ih rest (fun x hx => h x (by simp [hx]))
    rcases rtChar_cases (h c (by simp)) with hb | ht | hn | hr |
      ⟨h32, h126, hq, hd, hnb⟩
    · subst hb
      rw [show pyReprEscape '\'' ('\\' :: cs) =
        '\\' :: '\\' :: pyReprEscape '\'' cs from rfl]
      simp only [List.cons_append]
      rw [parseStrBody_backslash, parseStrEsc_backslash, hih]
      rfl
    · subst ht
      rw [show pyReprEscape '\'' ('\t' :: cs) =
        '\\' :: 't' :: pyReprEscape '\'' cs from rfl]
      simp only [List.cons_append]
      rw [parseStrBody_backslash, parseStrEsc_t, hih]
      rfl
    · subst hn
      rw [show pyReprEscape '\'' ('\n' :: cs) =
        '\\' :: 'n' :: pyReprEscape '\'' cs from rfl]
      simp only [List.cons_append]
      rw [parseStrBody_backslash, parseStrEsc_n, hih]
      rfl
    · subst hr
      rw [show pyReprEscape '\'' ('\r' :: cs) =
        '\\' :: 'r' :: pyReprEscape '\'' cs from rfl]
      simp only [List.cons_append]
      rw [parseStrBody_backslash, parseStrEsc_r, hih]
      rfl
    · have hn' : c ≠ '\n' := by intro he; rw [he] at h32; simp at h32
      have hr' : c ≠ '\r' := by intro he; rw [he] at h32; simp at h32
      have ht' : c ≠ '\t' := by intro he; rw [he] at h32; simp at h32
      have hc : ¬(c.toNat < 32 ∨ c.toNat = 127) := by omega
      have hlt : ¬(c.toNat < 32) := by omega
      rw [pyReprEscape_cons]
      simp only [if_neg hnb, if_neg hq, if_neg hn', if_neg hr', if_neg ht',
        if_neg hc]
      simp only [List.cons_append, parseStrBody, hd, if_neg hd, hnb,
        if_neg hnb, hlt, if_neg hlt, if_false, List.append_eq]
      rw [hih]
      rfl

/-- `parseVal` on a double-quoted `repr`-escaped round-tripping string. -/
theorem parseVal_str_esc (f : Nat) (cs rest : List Char)
    (h : ∀ c ∈ cs, RTChar c) :
    parseVal (f + 1) ('"' :: pyReprEscape '\'' cs ++ '"' :: rest) =
      some (.str ⟨cs⟩, rest) := by
  have e2 : skipWs ('"' :: pyReprEscape '\'' cs ++ '"' :: rest) =
      '"' :: (pyReprEscape '\'' cs ++ '"' :: rest) := skipWs_quote _
  simp only [parseVal, e2, if_pos rfl]
  rw [parseStrBody_esc cs rest h]
  rfl

theorem parseVal_space (f : Nat) (cs : List Char) :
    parseVal f (' ' :: cs) = parseVal f cs := by
  cases f with
  | zero => rfl
  | succ f => simp only [parseVal, skipWs_space]

theorem parseArrTail_rbrack (f : Nat) (cs : List Char) :
    parseArrTail (f + 1) (']' :: cs) = some ([], cs) := rfl

theorem parseArrTail_comma (f : Nat) (cs : List Char) :
    parseArrTail (f + 1) (',' :: cs) =
      (match parseVal f cs with
       | none => none
       | some (j, r2) => (parseArrTail f r2).map (fun p => (j :: p.1, p.2))) :=
  rfl

theorem parseVal_arr_quote (f : Nat) (cs : List Char) :
    parseVal (f + 1) ('[' :: '"' :: cs) =
      (match parseVal f ('"' :: cs) with
       | none => none
       | some (j, r2) =>
         match parseArrTail f r2 with
         | none => none
         | some (js, r3) => some (.arr (j :: js), r3)) := rfl

theorem parseVal_arr_empty (f : Nat) (cs : List Char) :
    parseVal (f + 1) ('[' :: ']' :: cs) = some (.arr [], cs) := rfl

theorem parseVal_arr_lbrack (f : Nat) (cs : List Char) :
    parseVal (f + 1) ('[' :: '[' :: cs) =
      (match parseVal f ('[' :: cs) with
       | none => none
       | some (j, r2) =>
         match parseArrTail f r2 with
         | none => none
         | some (js, r3) => some (.arr (j :: js), r3)) := rfl

theorem renderPair_expand (p : LogLine) (rest : List Char) :
    renderPair p ++ rest =
      '[' :: '"' :: pyReprEscape '\'' p.1.data ++ '"' :: ',' :: ' ' :: '"' ::
        pyReprEscape '\'' p.2.data ++ '"' :: ']' :: rest := by
  simp [renderPair]

theorem parseVal_pair (f : Nat) (p : LogLine) (rest : List Char)
    (h1 : RTStr p.1) (h2 : RTStr p.2) :
    parseVal (f + 3) (renderPair p ++ rest) = some (pairJson p, rest) := by
  rw [renderPair_expand]
  rw [show (f + 3) = (f + 2) + 1 from rfl]
  have hA := parseVal_arr_quote (f + 2)
    (pyReprEscape '\'' p.1.data ++ '"' :: ',' :: ' ' :: '"' ::
      pyReprEscape '\'' p.2.data ++ '"' :: ']' :: rest)
  simp only [List.cons_append, List.append_assoc, List.append_eq] at hA ⊢
  rw [hA]
  rw [show (f + 2) = (f + 1) + 1 from rfl]
  have hB := parseVal_str_esc (f + 1) p.1.data
    (',' :: ' ' :: '"' :: pyReprEscape '\'' p.2.data ++ '"' :: ']' :: rest) h1
  try simp only [List.cons_append, List.append_assoc, List.append_eq] at hB
  simp only [hB]
  have hC := parseArrTail_comma (f + 1)
    (' ' :: '"' :: pyReprEscape '\'' p.2.data ++ '"' :: ']' :: rest)
  try simp only [List.cons_append, List.append_assoc, List.append_eq] at hC
  simp only [hC]
  have hD := parseVal_space (f + 1)
    ('"' :: pyReprEscape '\'' p.2.data ++ '"' :: ']' :: rest)
  try simp only [List.cons_append, List.append_assoc, List.append_eq] at hD
  simp only [hD]
  have hE := parseVal_str_esc f p.2.data (']' :: rest) h2
  try simp only [List.cons_append, List.append_assoc, List.append_eq] at hE
  simp only [hE]
  simp only [parseArrTail_rbrack f rest]
  rfl


theorem parseArrTail_pairs : ∀ (ps : List LogLine) (f : Nat) (rest : List Char),
    (∀ p ∈ ps, RTStr p.1 ∧ RTStr p.2) →
    parseArrTail (f + ps.length + 4) (commaTail ps ++ ']' :: rest) =
      some (ps.map pairJson, rest) := by
  intro ps
  induction ps with
  | nil =>
    intro f rest _
    simp only [commaTail, List.nil_append, List.length_nil, List.map_nil]
    rw [show f + 0 + 4 = (f + 3) + 1 from by omega]
    exact parseArrTail_rbrack (f + 3) rest
  | cons q qs ih =>
    intro f rest h
    obtain ⟨h1, h2⟩ := h q (by simp)
    simp only [commaTail, List.length_cons, List.map_cons, List.cons_append,
      List.append_assoc]
    rw [show f + (qs.length + 1) + 4 = (f + qs.length + 4) + 1 from by omega]
    rw [parseArrTail_comma (f + qs.length + 4)
      (' ' :: (renderPair q ++ (commaTail qs ++ ']' :: rest)))]
    rw [parseVal_space (f + qs.length + 4)
      (renderPair q ++ (commaTail qs ++ ']' :: rest))]
    have hP := parseVal_pair (f + qs.length + 1) q
      (commaTail qs ++ ']' :: rest) h1 h2
    rw [show (f + qs.length + 1) + 3 = f + qs.length + 4 from by omega] at hP
    rw [hP]
    dsimp only
    rw [ih f rest (fun p hp => h p (by simp [hp]))]
    rfl


theorem parseVal_values (vs : List LogLine) (f : Nat) (rest : List Char)
    (h : ∀ p ∈ vs, RTStr p.1 ∧ RTStr p.2) :
    parseVal (f + vs.length + 5) ('[' :: (renderInner vs ++ ']' :: rest)) =
      some (.arr (vs.map pairJson), rest) := by
  cases vs with
  | nil =>
    simp only [renderInner, List.nil_append, List.length_nil, List.map_nil]
    rw [show f + 0 + 5 = (f + 4) + 1 from by omega]
    exact parseVal_arr_empty (f + 4) rest
  | cons q qs =>
    obtain ⟨h1, h2⟩ := h q (by simp)
    simp only [renderInner, List.length_cons, List.map_cons, List.append_assoc]
    rw [show f + (qs.length + 1) + 5 = (f + qs.length + 5) + 1 from by omega]
    have e1 : renderPair q ++ (commaTail qs ++ ']' :: rest) =
        '[' :: '"' :: (pyReprEscape '\'' q.1.data ++ '"' :: ',' :: ' ' :: '"' ::
          (pyReprEscape '\'' q.2.data ++ '"' :: ']' ::
            (commaTail qs ++ ']' :: rest))) := by
      simp [renderPair]
    rw [e1]
    rw [parseVal_arr_lbrack (f + qs.length + 5)]
    rw [← e1]
    have hP := parseVal_pair (f + qs.length + 2) q (commaTail qs ++ ']' :: rest)
      h1 h2
    rw [show (f + qs.length + 2) + 3 = f + qs.length + 5 from by omega] at hP
    rw [hP]
    dsimp only
    have hT := parseArrTail_pairs qs (f + 1) rest
      (fun p hp => h p (by simp [hp]))
    rw [show (f + 1) + qs.length + 4 = f + qs.length + 5 from by omega] at hT
    rw [hT]

theorem parseVal_obj_quote (f : Nat) (cs : List Char) :
    parseVal (f + 1) ('{' :: '"' :: cs) =
      (match parseMember f ('"' :: cs) with
       | none => none
       | some (kv, r2) =>
         match parseObjTail f r2 with
         | none => none
         | some (kvs, r3) => some (.obj (kv :: kvs), r3)) := rfl

theorem parseVal_obj_sp_quote (f : Nat) (cs : List Char) :
    parseVal (f + 1) ('{' :: ' ' :: '"' :: cs) =
      (match parseMember f (' ' :: '"' :: cs) with
       | none => none
       | some (kv, r2) =>
         match parseObjTail f r2 with
         | none => none
         | some (kvs, r3) => some (.obj (kv :: kvs), r3)) := rfl

theorem parseObjTail_rbrace (f : Nat) (cs : List Char) :
    parseObjTail (f + 1) ('}' :: cs) = some ([], cs) := rfl

theorem parseMember_space (f : Nat) (cs : List Char) :
    parseMember f (' ' :: cs) = parseMember f cs := by
  cases f with
  | zero => rfl
  | succ f => simp only [parseMember, skipWs_space]

theorem parseMember_safe (f : Nat) (k : List Char)
    (hk : ∀ c ∈ k, SafeChar c) (cs : List Char) :
    parseMember (f + 1) ('"' :: k ++ '"' :: ':' :: ' ' :: cs) =
      (parseVal f (' ' :: cs)).map (fun p => ((⟨k⟩, p.1), p.2)) := by
  have e2 : skipWs ('"' :: k ++ '"' :: ':' :: ' ' :: cs) =
      '"' :: (k ++ '"' :: ':' :: ' ' :: cs) := skipWs_quote _
  simp only [parseMember, e2, if_pos rfl]
  rw [parseStrBody_safe k (':' :: ' ' :: cs) hk]
  rfl

def valuesKey : List Char := ['v', 'a', 'l', 'u', 'e', 's']

theorem parseVal_wrapped (vs : List LogLine) (f : Nat) (rest : List Char)
    (h : ∀ p ∈ vs, RTStr p.1 ∧ RTStr p.2) :
    parseVal (f + vs.length + 8)
        ('{' :: '"' :: (valuesKey ++ '"' :: ':' :: ' ' ::
          '[' :: (renderInner vs ++ ']' :: '}' :: rest))) =
      some (jsonOfValues vs, rest) ∧
    parseVal (f + vs.length + 8)
        ('{' :: ' ' :: '"' :: (valuesKey ++ '"' :: ':' :: ' ' ::
          '[' :: (renderInner vs ++ ']' :: '}' :: rest))) =
      some (jsonOfValues vs, rest) := by
  have hk : ∀ c ∈ valuesKey, SafeChar c := by decide
  have hmem : parseMember (f + vs.length + 7)
      ('"' :: (valuesKey ++ '"' :: ':' :: ' ' ::
        '[' :: (renderInner vs ++ ']' :: '}' :: rest))) =
      some ((⟨valuesKey⟩, Json.arr (vs.map pairJson)), '}' :: rest) := by
    have hm := parseMember_safe (f + vs.length + 6) valuesKey hk
      ('[' :: (renderInner vs ++ ']' :: '}' :: rest))
    rw [show (f + vs.length + 6) + 1 = f + vs.length + 7 from by omega] at hm
    try simp only [List.cons_append, List.append_assoc] at hm
    rw [hm]
    rw [parseVal_space]
    have hv := parseVal_values vs (f + 1) ('}' :: rest)
      (fun p hp => h p hp)
    rw [show (f + 1) + vs.length + 5 = f + vs.length + 6 from by omega] at hv
    rw [hv]
    rfl
  constructor
  · rw [show f + vs.length + 8 = (f + vs.length + 7) + 1 from by omega]
    rw [parseVal_obj_quote (f + vs.length + 7)]
    rw [hmem]
    dsimp only
    rw [show f + vs.length + 7 = (f + vs.length + 6) + 1 from by omega]
    rw [parseObjTail_rbrace (f + vs.length + 6) rest]
    rfl
  · rw [show f + vs.length + 8 = (f + vs.length + 7) + 1 from by omega]
    rw [parseVal_obj_sp_quote (f + vs.length + 7)]
    rw [parseMember_space]
    rw [hmem]
    dsimp only
    rw [show f + vs.length + 7 = (f + vs.length + 6) + 1 from by omega]
    rw [parseObjTail_rbrace (f + vs.length + 6) rest]
    rfl

theorem jsonEscape_safe : ∀ cs : List Char, (∀ c ∈ cs, SafeChar c) →
    jsonEscape cs = cs := by
  intro cs h
  induction cs with
  | nil => rfl
  | cons c cs ih =>
    obtain ⟨h32, h126, hq, hd, hb⟩ := h c (by simp)
    have hn : c ≠ '\n' := by intro he; rw [he] at h32; simp at h32
    have hr : c ≠ '\r' := by intro he; rw [he] at h32; simp at h32
    have ht : c ≠ '\t' := by intro he; rw [he] at h32; simp at h32
    have h8 : c ≠ '\x08' := by intro he; rw [he] at h32; simp at h32
    have hf : c ≠ '\x0c' := by intro he; rw [he] at h32; simp at h32
    have hlt : ¬(c.toNat < 32) := by omega
    rw [show jsonEscape (c :: cs) =
      (if c = '"' then '\\' :: '"' :: jsonEscape cs
       else if c = '\\' then '\\' :: '\\' :: jsonEscape cs
       else if c = '\n' then '\\' :: 'n' :: jsonEscape cs
       else if c = '\t' then '\\' :: 't' :: jsonEscape cs
       else if c = '\r' then '\\' :: 'r' :: jsonEscape cs
       else if c = '\x08' then '\\' :: 'b' :: jsonEscape cs
       else if c = '\x0c' then '\\' :: 'f' :: jsonEscape cs
       else if c.toNat < 32 then
         '\\' :: 'u' :: '0' :: '0' :: hexDigit (c.toNat / 16) ::
           hexDigit (c.toNat % 16) :: jsonEscape cs
       else c :: jsonEscape cs) from rfl]
    rw [ih (fun x hx => h x (by simp [hx]))]
    simp [hd, hb, hn, ht, hr, h8, hf, hlt]

theorem string_data_append (a b : String) :
    (a ++ b).data = a.data ++ b.data := rfl

/-- One step of `jsonEscape`, spelled out. -/
theorem jsonEscape_cons (c : Char) (cs : List Char) :
    jsonEscape (c :: cs) =
      (if c = '"' then '\\' :: '"' :: jsonEscape cs
       else if c = '\\' then '\\' :: '\\' :: jsonEscape cs
       else if c = '\n' then '\\' :: 'n' :: jsonEscape cs
       else if c = '\t' then '\\' :: 't' :: jsonEscape cs
       else if c = '\r' then '\\' :: 'r' :: jsonEscape cs
       else if c = '\x08' then '\\' :: 'b' :: jsonEscape cs
       else if c = '\x0c' then '\\' :: 'f' :: jsonEscape cs
       else if c.toNat < 32 then
         '\\' :: 'u' :: '0' :: '0' :: hexDigit (c.toNat / 16) ::
           hexDigit (c.toNat % 16) :: jsonEscape cs
       else c :: jsonEscape cs) := rfl

/-- On round-tripping characters `json.dumps` escapes exactly as `repr`
does, so the serialized output reproduces the replaced document's string
bodies. -/
theorem jsonEscape_eq_reprEscape : ∀ cs : List Char,
    (∀ c ∈ cs, RTChar c) → jsonEscape cs = pyReprEscape '\'' cs := by
  intro cs h
  induction cs with
  | nil => rfl
  | cons c cs ih =>
    have hih := ih (fun x hx => h x (by simp [hx]))
    rcases rtChar_cases (h c (by simp)) with hb | ht | hn | hr |
      ⟨h32, h126, hq, hd, hnb⟩
    · subst hb
      rw [show jsonEscape ('\\' :: cs) = '\\' :: '\\' :: jsonEscape cs from rfl,
        show pyReprEscape '\'' ('\\' :: cs) =
          '\\' :: '\\' :: pyReprEscape '\'' cs from rfl, hih]
    · subst ht
      rw [show jsonEscape ('\t' :: cs) = '\\' :: 't' :: jsonEscape cs from rfl,
        show pyReprEscape '\'' ('\t' :: cs) =
          '\\' :: 't' :: pyReprEscape '\'' cs from rfl, hih]
    · subst hn
      rw [show jsonEscape ('\n' :: cs) = '\\' :: 'n' :: jsonEscape cs from rfl,
        show pyReprEscape '\'' ('\n' :: cs) =
          '\\' :: 'n' :: pyReprEscape '\'' cs from rfl, hih]
    · subst hr
      rw [show jsonEscape ('\r' :: cs) = '\\' :: 'r' :: jsonEscape cs from rfl,
        show pyReprEscape '\'' ('\r' :: cs) =
          '\\' :: 'r' :: pyReprEscape '\'' cs from rfl, hih]
    · have hn' : c ≠ '\n' := by intro he; rw [he] at h32; simp at h32
      have hr' : c ≠ '\r' := by intro he; rw [he] at h32; simp at h32
      have ht' : c ≠ '\t' := by intro he; rw [he] at h32; simp at h32
      have h8 : c ≠ '\x08' := by intro he; rw [he] at h32; simp at h32
      have hf : c ≠ '\x0c' := by intro he; rw [he] at h32; simp at h32
      have hlt : ¬(c.toNat < 32) := by omega
      have hc : ¬(c.toNat < 32 ∨ c.toNat = 127) := by omega
      rw [jsonEscape_cons, pyReprEscape_cons]
      simp only [if_neg hd, if_neg hnb, if_neg hn', if_neg ht', if_neg hr',
        if_neg h8, if_neg hf, if_neg hlt, if_neg hq, if_neg hc]
      rw [hih]

theorem jsonDumps_pair (p : LogLine) (h1 : RTStr p.1) (h2 : RTStr p.2) :
    (jsonDumps (pairJson p)).data = renderPair p := by
  show (jsonDumps (.arr [.str p.1, .str p.2])).data = renderPair p
  rw [show jsonDumps (.arr [.str p.1, .str p.2]) =
    "[" ++ ((⟨'"' :: jsonEscape p.1.data ++ ['"']⟩ : String) ++ ", " ++
      (⟨'"' :: jsonEscape p.2.data ++ ['"']⟩ : String)) ++ "]" from rfl]
  rw [jsonEscape_eq_reprEscape p.1.data h1, jsonEscape_eq_reprEscape p.2.data h2]
  simp [renderPair, string_data_append]

theorem jsonDumpsList_pairs : ∀ vs : List LogLine,
    (∀ p ∈ vs, RTStr p.1 ∧ RTStr p.2) →
    (jsonDumpsList (vs.map pairJson)).data = renderInner vs := by
  intro vs
  induction vs with
  | nil => intro _; rfl
  | cons q qs ih =>
    intro h
    obtain ⟨h1, h2⟩ := h q (by simp)
    cases qs with
    | nil =>
      simp only [List.map_cons, List.map_nil, jsonDumpsList, renderInner,
        commaTail]
      rw [jsonDumps_pair q h1 h2]
      simp
    | cons r rest =>
      have hq := ih (fun p hp => h p (by simp at hp ⊢; tauto))
      simp only [List.map_cons, jsonDumpsList, renderInner, commaTail] at hq ⊢
      rw [show (jsonDumps (pairJson q) ++ ", " ++
          jsonDumpsList (pairJson r :: List.map pairJson rest)).data =
        (jsonDumps (pairJson q)).data ++ ',' :: ' ' ::
          (jsonDumpsList (pairJson r :: List.map pairJson rest)).data from by
          simp [string_data_append]]
      rw [jsonDumps_pair q h1 h2]
      rw [hq]

theorem jsonDumps_values_data (vs : List LogLine)
    (h : ∀ p ∈ vs, RTStr p.1 ∧ RTStr p.2) :
    (jsonDumps (jsonOfValues vs)).data =
      '{' :: '"' :: (valuesKey ++ '"' :: ':' :: ' ' ::
        '[' :: (renderInner vs ++ ']' :: '}' :: [])) := by
  rw [show jsonDumps (jsonOfValues vs) =
    "\x7b" ++ ("\"" ++ (⟨jsonEscape "values".data⟩ : String) ++ "\": " ++
      ("[" ++ jsonDumpsList (vs.map pairJson) ++ "]")) ++ "\x7d" from rfl]
  rw [show jsonEscape "values".data = valuesKey from rfl]
  simp only [string_data_append]
  rw [jsonDumpsList_pairs vs h]
  simp [valuesKey]

theorem commaTail_length_ge : ∀ ps : List LogLine,
    ps.length ≤ (commaTail ps).length := by
  intro ps
  induction ps with
  | nil => simp [commaTail]
  | cons q qs ih =>
    simp only [commaTail, List.length_cons, List.length_append]
    omega

theorem renderInner_length_ge (vs : List LogLine) :
    vs.length ≤ (renderInner vs).length + 1 := by
  cases vs with
  | nil => simp [renderInner]
  | cons q qs =>
    have := commaTail_length_ge qs
    simp only [renderInner, List.length_cons, List.length_append]
    omega

theorem replaced_wrapped (vs : List LogLine)
    (h : ∀ p ∈ vs, RTStr p.1 ∧ RTStr p.2) :
    (("\x7b \"values\": ".data ++ pyReprValues vs ++ ['}']).map
        (fun c => if c = '\'' then '"' else c)) =
      '{' :: ' ' :: '"' :: (valuesKey ++ '"' :: ':' :: ' ' ::
        '[' :: (renderInner vs ++ ']' :: '}' :: [])) := by
  simp only [List.map_append]
  rw [replaced_values vs h]
  rw [show ("\x7b \"values\": ".data.map (fun c => if c = '\'' then '"' else c)) =
    '{' :: ' ' :: '"' :: 'v' :: 'a' :: 'l' :: 'u' :: 'e' :: 's' :: '"' ::
      ':' :: ' ' :: [] from rfl]
  rw [show (['}'].map (fun c => if c = '\'' then '"' else c)) = ['}'] from rfl]
  simp [valuesKey]

theorem jsonParse_dumps_values (vs : List LogLine)
    (h : ∀ p ∈ vs, RTStr p.1 ∧ RTStr p.2) :
    jsonParse (jsonDumps (jsonOfValues vs)) = some (jsonOfValues vs) := by
  have hd := jsonDumps_values_data vs h
  have hlen : (jsonDumps (jsonOfValues vs)).data.length + 1 =
      (7 + (renderInner vs).length - vs.length) + vs.length + 8 := by
    rw [hd]
    have := renderInner_length_ge vs
    simp only [List.length_cons, List.length_append, valuesKey]
    simp
    omega
  simp only [jsonParse]
  rw [hlen, hd]
  rw [(parseVal_wrapped vs (7 + (renderInner vs).length - vs.length) [] h).1]
  rfl

theorem jsonParse_wrapped_sp (vs : List LogLine)
    (h : ∀ p ∈ vs, RTStr p.1 ∧ RTStr p.2) :
    jsonParse ⟨'{' :: ' ' :: '"' :: (valuesKey ++ '"' :: ':' :: ' ' ::
        '[' :: (renderInner vs ++ ']' :: '}' :: []))⟩ =
      some (jsonOfValues vs) := by
  have hlen : ('{' :: ' ' :: '"' :: (valuesKey ++ '"' :: ':' :: ' ' ::
      '[' :: (renderInner vs ++ ']' :: '}' :: []))).length + 1 =
      (8 + (renderInner vs).length - vs.length) + vs.length + 8 := by
    have := renderInner_length_ge vs
    simp only [List.length_cons, List.length_append, valuesKey]
    simp
    omega
  simp only [jsonParse]
  rw [hlen]
  rw [(parseVal_wrapped vs (8 + (renderInner vs).length - vs.length) [] h).2]
  rfl

theorem formatLogsToJson_safe (g : LogGroup) (rest : List LogGroup)
    (h : ∀ p ∈ g.values, RTStr p.1 ∧ RTStr p.2) :
    formatLogsToJson (g :: rest) = .ok (jsonDumps (jsonOfValues g.values)) := by
  have hrep := replaced_wrapped g.values h
  simp only [formatLogsToJson]
  rw [hrep]
  rw [jsonParse_wrapped_sp g.values h]

/-- **C5 counterexample.** The structured formatter's textual
quote-replacement breaks on messages containing quotes: for the message
`a"b`, Python `repr` yields `'a"b'` and the global `'` → `"` replacement
produces `"a"b"` inside the document, which no JSON reader accepts —
`json.loads` raises and the formatter fails instead of producing valid
round-tripping JSON.  A message with a single quote (`it's`, which `repr`
renders double-quoted as `"it's"`) fails the same way. -/
theorem C5_counterexample :
    formatLogsToJson [⟨[("1", "a\"b")]⟩] = .error .jsonDecode ∧
    formatLogsToJson [⟨[("1", "it's")]⟩] = .error .jsonDecode :=
  ⟨rfl, rfl⟩

/-- The JSON value the formatter actually emits for the single message
`", "`: the quote replacement turns `repr`'s `'", "'` into `"", ""`,
still valid JSON, but now denoting the three strings `1`, `` and ``
instead of the original pair. -/
def corruptedJson : Json :=
  .obj [("values", .arr [.arr [.str "1", .str "", .str ""]])]

/-- **C5 (amended).** For every batch whose timestamps and messages
consist only of printable ASCII characters other than the two quote
characters — backslashes included — plus tab, newline and carriage
return, the structured formatter succeeds and its output is valid JSON
that a standard JSON reader parses back to exactly the original
`{"values": [[ts, msg], …]}` structure: every such message round-trips
verbatim (`repr` escapes backslash, tab, newline and carriage return,
and those escapes are valid JSON that `json.dumps` re-emits).  Messages
containing a quote of either kind are not covered, and fail in one of
two ways: the quote-substituted document can be invalid JSON, so
`json.loads` raises uncaught (the counterexample's messages `a"b` and
`it's`), or it can remain valid JSON denoting different values, so the
formatter silently emits corrupted output — for the message `", "` it
emits the three values `1`, `` and `` in place of the original pair. -/
theorem C5_json_round_trip (g : LogGroup) (rest : List LogGroup)
    (h : ∀ p ∈ g.values, RTStr p.1 ∧ RTStr p.2) :
    (formatLogsToJson (g :: rest) = .ok (jsonDumps (jsonOfValues g.values)) ∧
     jsonParse (jsonDumps (jsonOfValues g.values)) =
       some (jsonOfValues g.values)) ∧
    (formatLogsToJson [⟨[("1", "\", \"")]⟩] = .ok (jsonDumps corruptedJson) ∧
     corruptedJson ≠ jsonOfValues [("1", "\", \"")]) :=
  ⟨⟨formatLogsToJson_safe g rest h, jsonParse_dumps_values g.values h⟩,
   rfl, by simp [corruptedJson, jsonOfValues, pairJson]⟩

/-- **C5 witness.** The amended theorem instantiated on a concrete
single-line batch whose message contains a backslash, a tab and a
newline. -/
theorem C5_json_round_trip_witness :
    (formatLogsToJson [⟨[("1700000000000000000", "a\\b\tc\nd")]⟩] =
       .ok (jsonDumps (jsonOfValues [("1700000000000000000", "a\\b\tc\nd")])) ∧
     jsonParse (jsonDumps (jsonOfValues [("1700000000000000000", "a\\b\tc\nd")])) =
       some (jsonOfValues [("1700000000000000000", "a\\b\tc\nd")])) ∧
    (formatLogsToJson [⟨[("1", "\", \"")]⟩] = .ok (jsonDumps corruptedJson) ∧
     corruptedJson ≠ jsonOfValues [("1", "\", \"")]) :=
  C5_json_round_trip ⟨[("1700000000000000000", "a\\b\tc\nd")]⟩ [] (by decide)

end LokiExport
